import Mathlib

/-!
Verification of the order-tracking / dispatch-reconciliation backend.

The development shallowly embeds the two source modules:
* `sheets_client.py` — normalization, dispatch aggregation, the three pending
  views (`get_orders_by_party`, `get_orders_by_product`, `get_pivot_data`),
  recent-order listings, and the sheet write operations (add / update /
  soft-delete / restore / dispatch) together with the read cache;
* `app.py` — the `/submit` de-duplication step.

Modelling conventions:
* a spreadsheet is a `List Row` with `Row := List String`; ranged writes pad
  rows with `""` exactly as the spreadsheet service does;
* Python `float(s)` / `int(float(s))` are modelled exactly over decimal
  literals (optional sign, digits, one optional dot); floats are represented
  as exact rationals, timestamps as rationals;
* Python dicts are association lists preserving insertion order (updates in
  place, new keys appended), which matches dict iteration semantics;
* `str.strip`/`str.lower` are modelled over the ASCII range used by the data.
-/

/-- `Row` models one spreadsheet row as returned by `get_all_values`. -/
abbrev Row := List String

/-- Characters stripped by Python `str.strip()`. -/
def pySpace (c : Char) : Bool :=
  c = ' ' || c = '\t' || c = '\n' || c = '\r' || c = '\x0b' || c = '\x0c'

/-- Python `str.strip()` on a character list. -/
def pyStripL (l : List Char) : List Char :=
  ((l.dropWhile pySpace).reverse.dropWhile pySpace).reverse

/-- Python `str.strip()`. -/
def pyStrip (s : String) : String := String.mk (pyStripL s.toList)

/-- Python `str.lower()` (ASCII range). -/
def pyLower (s : String) : String := String.mk (s.toList.map Char.toLower)

/-- Python `str.replace(pat, repl)` for a single-character pattern, which is
what both normalizers use (`"&" -> "and"`, `" " -> ""`): every occurrence of
the character is substituted. -/
def pyReplaceChar (pat : Char) (repl : String) (s : String) : String :=
  String.mk ((s.toList.map (fun c => if c = pat then repl.toList else [c])).flatten)

/-- `SheetsClient._norm` from `sheets_client.py`:
`(s or "").strip().lower().replace(" ", "")`. -/
def norm (s : String) : String := pyReplaceChar ' ' "" (pyLower (pyStrip s))

/-- `SheetsClient._norm_company` from `sheets_client.py`:
`(s or "").strip().lower().replace("&", "and").replace(" ", "")`. -/
def normCompany (s : String) : String :=
  pyReplaceChar ' ' "" (pyReplaceChar '&' "and" (pyLower (pyStrip s)))

/-- Python substring membership `needle in hay` on character lists. -/
def substrL (needle hay : List Char) : Bool :=
  needle.isPrefixOf hay ||
    match hay with
    | [] => false
    | _ :: t => substrL needle t

/-- Python substring membership `needle in hay`. -/
def substrB (needle hay : String) : Bool := substrL needle.toList hay.toList

/-- Numeric value of a digit list (most significant first). -/
def digitsToNat (l : List Char) : Nat :=
  l.foldl (fun a c => a * 10 + (c.toNat - 48)) 0

/-- Splits a stripped decimal literal into (negative?, integer digits,
fraction digits); `none` when Python `float` would raise `ValueError`.
Exponent / `inf` / `nan` forms never occur in the data and are not modelled. -/
def decSplit (l : List Char) : Option (Bool × List Char × List Char) :=
  let p : Bool × List Char :=
    match l with
    | '+' :: t => (false, t)
    | '-' :: t => (true, t)
    | _ => (false, l)
  let ip := p.2.takeWhile (fun c => c ≠ '.')
  let rest := p.2.dropWhile (fun c => c ≠ '.')
  match rest with
  | [] => if ip ≠ [] ∧ ip.all Char.isDigit then some (p.1, ip, []) else none
  | _ :: fp =>
    if (ip ≠ [] ∨ fp ≠ []) ∧ ip.all Char.isDigit ∧ fp.all Char.isDigit then
      some (p.1, ip, fp)
    else none

/-- Python `float(s)`, as an exact rational. -/
def parseFloat (s : String) : Option ℚ :=
  (decSplit (pyStripL s.toList)).map (fun t =>
    (if t.1 then (-1 : ℚ) else 1) *
      ((digitsToNat t.2.1 : ℚ) + (digitsToNat t.2.2 : ℚ) / (10 : ℚ) ^ t.2.2.length))

/-- Python `int(float(s))`: the fractional digits are dropped (`int`
truncates toward zero). -/
def parseQty (s : String) : Option Int :=
  (decSplit (pyStripL s.toList)).map (fun t =>
    (if t.1 then (-1 : Int) else 1) * (digitsToNat t.2.1 : Int))

section AList

variable {κ α : Type} [DecidableEq κ]

/-- Python dict lookup `m.get(k)` over an insertion-ordered association
list. -/
def alGet : List (κ × α) → κ → Option α
  | [], _ => none
  | (k0, v0) :: rest, k => if k = k0 then some v0 else alGet rest k

/-- Python dict store `m[k] = v`: an existing key keeps its position, a new
key is appended (dict insertion order). -/
def alSet : List (κ × α) → κ → α → List (κ × α)
  | [], k, v => [(k, v)]
  | (k0, v0) :: rest, k, v =>
    if k = k0 then (k0, v) :: rest else (k0, v0) :: alSet rest k v

theorem alGet_alSet_self (m : List (κ × α)) (k : κ) (v : α) :
    alGet (alSet m k v) k = some v := by
  induction m with
  | nil => simp [alSet, alGet]
  | cons h t ih =>
    by_cases hk : k = h.1
    · simp [alSet, alGet, hk]
    · simp [alSet, alGet, hk, ih]

theorem alGet_alSet_ne (m : List (κ × α)) (k k' : κ) (v : α) (h : k' ≠ k) :
    alGet (alSet m k v) k' = alGet m k' := by
  induction m with
  | nil => simp [alSet, alGet, h]
  | cons hd t ih =>
    by_cases hk : k = hd.1
    · subst hk
      simp [alSet, alGet, h]
    · by_cases hk' : k' = hd.1
      · simp [alSet, alGet, hk, hk']
      · simp [alSet, alGet, hk, hk', ih]

theorem keys_alSet (m : List (κ × α)) (k : κ) (v : α) :
    (alSet m k v).map Prod.fst =
      if k ∈ m.map Prod.fst then m.map Prod.fst else m.map Prod.fst ++ [k] := by
  induction m with
  | nil => simp [alSet]
  | cons hd t ih =>
    by_cases hk : k = hd.1
    · simp [alSet, hk]
    · simp only [alSet, if_neg hk, List.map_cons, ih, List.mem_cons]
      by_cases hm : k ∈ t.map Prod.fst
      · simp [hm, hk]
      · simp [hm, hk]

end AList

/-- One dispatch row's contribution to `SheetsClient._dispatch_map`: the key
`((r[4] or "").strip(), _norm(r[2]))` and quantity `int(float(r[3]))`; rows
shorter than 5 cells, rows with unparsable quantity, and rows with an empty
serial or product key are skipped. -/
def dispatchRowKey (r : Row) : Option ((String × String) × Int) :=
  if r.length < 5 then none
  else
    let serial := pyStrip (r.getD 4 "")
    let product := norm (r.getD 2 "")
    match parseQty (r.getD 3 "") with
    | none => none
    | some qty => if serial = "" ∨ product = "" then none else some ((serial, product), qty)

/-- `SheetsClient._dispatch_map`: fold the dispatch rows (header skipped)
into a dict from (serial, normalized product) to summed quantity. -/
def dispatchMap (ds : List Row) : List ((String × String) × Int) :=
  (ds.drop 1).foldl
    (fun m r =>
      match dispatchRowKey r with
      | none => m
      | some kq => alSet m kq.1 ((alGet m kq.1).getD 0 + kq.2))
    []

/-- Total dispatched quantity for a key, stated as the claims state it: the
sum over all dispatch rows sharing the key. -/
def dispatchSum (ds : List Row) (k : String × String) : Int :=
  ((ds.drop 1).filterMap dispatchRowKey).foldr
    (fun kq a => if kq.1 = k then kq.2 + a else a) 0

/-- A reconciliation record emitted by the two list views. -/
structure OrderRec where
  company : String
  product : String
  serial : String
  ordered : Int
  dispatched : Int
  remaining : Int
  price : String
  deriving DecidableEq, Repr

/-- Loop body of `SheetsClient.get_orders_by_party` for one order row. -/
def byPartyRow (dm : List ((String × String) × Int)) (company : String) (r : Row) :
    Option OrderRec :=
  if r.length < 6 then none
  else
    let serial := pyStrip (r.getD 0 "")
    let party := pyStrip (r.getD 2 "")
    let product := r.getD 3 ""
    if normCompany party ≠ normCompany company then none
    else
      let ordered := (parseQty (r.getD 5 "")).getD 0
      let dispatched := (alGet dm (serial, norm product)).getD 0
      let remaining := ordered - dispatched
      if remaining ≤ 0 then none
      else
        some { company := party, product := product, serial := serial,
               ordered := ordered, dispatched := dispatched, remaining := remaining,
               price := if 6 < r.length then r.getD 6 "" else "" }

/-- `SheetsClient.get_orders_by_party`. -/
def getOrdersByParty (orders ds : List Row) (company : String) : List OrderRec :=
  (orders.drop 1).filterMap (byPartyRow (dispatchMap ds) company)

/-- Loop body of `SheetsClient.get_orders_by_product` for one order row; the
dispatch lookup uses the normalized query (`target`), as in the source. -/
def byProductRow (dm : List ((String × String) × Int)) (product : String) (r : Row) :
    Option OrderRec :=
  if r.length < 6 then none
  else
    let target := norm product
    let serial := pyStrip (r.getD 0 "")
    let prod := r.getD 3 ""
    if norm prod ≠ target then none
    else
      let party := r.getD 2 ""
      let ordered := (parseQty (r.getD 5 "")).getD 0
      let dispatched := (alGet dm (serial, target)).getD 0
      let remaining := ordered - dispatched
      if remaining ≤ 0 then none
      else
        some { company := party, product := prod, serial := serial,
               ordered := ordered, dispatched := dispatched, remaining := remaining,
               price := if 6 < r.length then r.getD 6 "" else "" }

/-- `SheetsClient.get_orders_by_product`. -/
def getOrdersByProduct (orders ds : List Row) (product : String) : List OrderRec :=
  (orders.drop 1).filterMap (byProductRow (dispatchMap ds) product)

/-- Python `s.split(sep)` for a single-character separator (the pivot
filters split on `","`). -/
def splitOnCharL (sep : Char) : List Char → List (List Char)
  | [] => [[]]
  | c :: rest =>
    match splitOnCharL sep rest with
    | [] => if c = sep then [[], []] else [[c]]
    | h :: t => if c = sep then [] :: h :: t else (c :: h) :: t

/-- Python `s.split(sep)` on strings. -/
def pySplitChar (sep : Char) (s : String) : List String :=
  (splitOnCharL sep s.toList).map String.mk

/-- The filter test of `get_pivot_data`: the (already lowercased) filter
string is split on commas, empty tokens dropped; a name passes when the list
is empty or some token is a substring of the lowercased name. -/
def filterMatch (filterStr name : String) : Bool :=
  let fs := (pySplitChar ',' filterStr).filter (fun p => p ≠ "")
  fs.isEmpty || fs.any (fun p => substrB p (pyLower name))

/-- Loop body of `get_pivot_data` for one order row, parameterized by the
company-text key `key` (the source uses `r[2].strip()`, i.e. `key = pyStrip`):
skips short rows and blank-date rows, applies both filters, computes
`pending = ordered - dispatched` with the row's serial `r[0]` taken verbatim
(not stripped), and contributes `(company, product, pending)` when
`pending > 0`. -/
def pivotRowContribK (key : String → String) (dm : List ((String × String) × Int))
    (pf cf : String) (r : Row) : Option (String × String × Int) :=
  if r.length < 6 then none
  else
    let serial := r.getD 0 ""
    let date := r.getD 1 ""
    let company := key (r.getD 2 "")
    let product := r.getD 3 ""
    if pyStrip date = "" then none
    else if ¬ filterMatch pf product then none
    else if ¬ filterMatch cf company then none
    else
      let ordered := (parseQty (r.getD 5 "")).getD 0
      let pending := ordered - (alGet dm (serial, norm product)).getD 0
      if pending ≤ 0 then none else some (company, product, pending)

/-- Loop body of `get_pivot_data` as in the source (`company = r[2].strip()`). -/
def pivotRowContrib (dm : List ((String × String) × Int)) (pf cf : String) (r : Row) :
    Option (String × String × Int) :=
  pivotRowContribK pyStrip dm pf cf r

/-- One accumulation step of `get_pivot_data`:
`data.setdefault(company, {}); data[company][product] += pending`. -/
def pivotStep (data : List (String × List (String × Int)))
    (t : String × String × Int) : List (String × List (String × Int)) :=
  let inner := (alGet data t.1).getD []
  alSet data t.1 (alSet inner t.2.1 ((alGet inner t.2.1).getD 0 + t.2.2))

/-- Code-point lexicographic comparison of character lists, as Python
compares strings. -/
def charListLe : List Char → List Char → Bool
  | [], _ => true
  | _ :: _, [] => false
  | a :: as, b :: bs =>
    if a.toNat < b.toNat then true
    else if b.toNat < a.toNat then false
    else charListLe as bs

/-- Python string comparison `a <= b` (code-point lexicographic). -/
def strLeB (a b : String) : Bool := charListLe a.toList b.toList

/-- The ordering used by Python `sorted` on strings, as a relation. -/
def strLe (a b : String) : Prop := strLeB a b = true

instance : DecidableRel strLe := fun a b => instDecidableEqBool (strLeB a b) true

/-- Python `sorted` on strings (code-point lexicographic). -/
def sortStr (l : List String) : List String :=
  List.insertionSort strLe l

/-- First-occurrence deduplication (the effect of collecting into a Python
set, up to the later sort). -/
def dedupAux (seen : List String) : List String → List String
  | [] => []
  | x :: xs => if x ∈ seen then dedupAux seen xs else x :: dedupAux (x :: seen) xs

/-- Result triple of `get_pivot_data`. -/
structure PivotOut where
  products : List String
  parties : List String
  pivot : List (List Int)
  deriving DecidableEq, Repr

/-- Cell lookup `data[party].get(product, 0)` (0 when the pair is absent). -/
def cellGet (data : List (String × List (String × Int))) (c p : String) : Int :=
  (alGet ((alGet data c).getD []) p).getD 0

/-- The aggregation part of `get_pivot_data`, applied to the list of
per-row contributions: build the nested dict, then sort the distinct
products and parties and emit the row-major matrix. -/
def pivotAggregate (contribs : List (String × String × Int)) : PivotOut :=
  let data := contribs.foldl pivotStep []
  let products := sortStr (dedupAux [] ((data.map (fun e => e.2.map Prod.fst)).flatten))
  let parties := sortStr (data.map Prod.fst)
  { products := products, parties := parties,
    pivot := parties.map (fun c => products.map (fun p => cellGet data c p)) }

/-- `SheetsClient.get_pivot_data`: both filters are lowercased once, each
surviving order row contributes `(stripped company, product, pending)`, and
the contributions are aggregated into the sorted pivot. -/
def getPivotData (orders ds : List Row) (productFilter partyFilter : String) : PivotOut :=
  pivotAggregate
    ((orders.drop 1).filterMap
      (pivotRowContrib (dispatchMap ds) (pyLower productFilter) (pyLower partyFilter)))

/-- Pad a row with empty cells up to length `n` (the spreadsheet service
materializes missing cells as `""`). -/
def padTo (r : Row) (n : Nat) : Row := r ++ List.replicate (n - r.length) ""

/-- Write `vals` into a row starting at 0-based column `start`
(`start = 1` for a `B:…` range, `start = 3` for a `D:…` range); cells before
`start` and after the range keep their values. -/
def setRange (r : Row) (start : Nat) (vals : List String) : Row :=
  (padTo r start).take start ++ vals ++ r.drop (start + vals.length)

/-- A ranged single-row write `sheet.update`: 1-indexed row `n` is updated
in place; writing past the last row extends the sheet. -/
def sheetUpdateRange (sheet : List Row) (n : Nat) (start : Nat) (vals : List String) :
    List Row :=
  if n - 1 < sheet.length then
    sheet.set (n - 1) (setRange (sheet.getD (n - 1) []) start vals)
  else
    sheet ++ List.replicate (n - 1 - sheet.length) [] ++ [setRange [] start vals]

/-- The blank-date test of `add_order`: `len(row) < 2 or not row[1].strip()`. -/
def blankDateRow (r : Row) : Bool := r.length < 2 || pyStrip (r.getD 1 "") = ""

/-- 0-based index of the first row satisfying the blank-date test. -/
def firstBlankIdx : List Row → Option Nat
  | [] => none
  | r :: rest => if blankDateRow r then some 0 else (firstBlankIdx rest).map (· + 1)

/-- The 1-indexed target row of `add_order`: the first data row (the header
at index 0 is skipped) whose date is blank, else the row after the last. -/
def addOrderTarget (sheet : List Row) : Nat :=
  match firstBlankIdx (sheet.drop 1) with
  | some i => i + 2
  | none => sheet.length + 1

/-- Stand-in for how the spreadsheet service renders the numeric price cell
written by `add_order`; the claims never inspect this text. -/
def ratRepr (q : ℚ) : String := toString q

/-- `SheetsClient.add_order`: writes
`[today, company, product, brand, int(quantity), float(price)]` into columns
B–G of the target row. -/
def addOrder (today company product brand : String) (quantity : Int) (price : ℚ)
    (sheet : List Row) : List Row :=
  sheetUpdateRange sheet (addOrderTarget sheet) 1
    [today, company, product, brand, Int.repr quantity, ratRepr price]

/-- `SheetsClient.update_order_row`: writes product/brand/quantity/price
into columns D–G of the given 1-indexed row. -/
def updateOrderSheet (row : Nat) (product brand : String) (quantity : Int) (price : ℚ)
    (sheet : List Row) : List Row :=
  sheetUpdateRange sheet row 3 [product, brand, Int.repr quantity, ratRepr price]

/-- `SheetsClient.delete_order_row` (soft delete): blanks columns B–G of the
given row, leaving column A (the serial) untouched. -/
def deleteOrderSheet (row : Nat) (sheet : List Row) : List Row :=
  sheetUpdateRange sheet row 1 ["", "", "", "", "", ""]

/-- The caller-supplied snapshot passed to `restore_order_row`
(`data.get(key, "")` for the six mutable fields). -/
structure Snapshot where
  date : String
  company : String
  product : String
  brand : String
  quantity : String
  price : String
  deriving DecidableEq, Repr

/-- `SheetsClient.restore_order_row`: rewrites columns B–G of the given row
from the snapshot. -/
def restoreOrderSheet (row : Nat) (d : Snapshot) (sheet : List Row) : List Row :=
  sheetUpdateRange sheet row 1 [d.date, d.company, d.product, d.brand, d.quantity, d.price]

/-- The in-memory state of a `SheetsClient`: the two worksheets and the
read cache `self._cache` (key, cached rows, store timestamp). -/
structure ClientState where
  orders : List Row
  dispatches : List Row
  cache : List (String × List Row × ℚ)
  deriving DecidableEq, Repr

/-- `SheetsClient._invalidate_cache`: `self._cache.clear()`. -/
def invalidateCache (st : ClientState) : ClientState := { st with cache := [] }

/-- `SheetsClient._cached`: serve a fresh entry (age < 15 s), otherwise run
the read and store it under the key with the current time. -/
def cachedFetch (st : ClientState) (now : ℚ) (key : String) (read : List Row) :
    List Row × ClientState :=
  match alGet st.cache key with
  | some vt => if now - vt.2 < 15 then (vt.1, st) else
      (read, { st with cache := alSet st.cache key (read, now) })
  | none => (read, { st with cache := alSet st.cache key (read, now) })

/-- `add_order` as a state transition: it updates the orders sheet and — as
in the source — does NOT touch the cache (`_invalidate_cache` is never
called there). -/
def addOrderSt (today company product brand : String) (quantity : Int) (price : ℚ)
    (st : ClientState) : ClientState :=
  { st with orders := addOrder today company product brand quantity price st.orders }

/-- `update_order_row` as a state transition: write, then invalidate. -/
def updateOrderRowSt (row : Nat) (product brand : String) (quantity : Int) (price : ℚ)
    (st : ClientState) : ClientState :=
  invalidateCache { st with orders := updateOrderSheet row product brand quantity price st.orders }

/-- `delete_order_row` as a state transition: write, then invalidate. -/
def deleteOrderRowSt (row : Nat) (st : ClientState) : ClientState :=
  invalidateCache { st with orders := deleteOrderSheet row st.orders }

/-- `restore_order_row` as a state transition: write, then invalidate. -/
def restoreOrderRowSt (row : Nat) (d : Snapshot) (st : ClientState) : ClientState :=
  invalidateCache { st with orders := restoreOrderSheet row d st.orders }

/-- `add_dispatch` as a state transition: append
`[today, company, product, quantity, order_number]`, then invalidate. -/
def addDispatchSt (today company product : String) (quantity : Int) (orderNumber : String)
    (st : ClientState) : ClientState :=
  invalidateCache
    { st with dispatches := st.dispatches ++ [[today, company, product, Int.repr quantity, orderNumber]] }

theorem charListLe_total (a b : List Char) :
    charListLe a b = true ∨ charListLe b a = true := by
  induction a generalizing b with
  | nil => left; simp [charListLe]
  | cons x xs ih =>
    cases b with
    | nil => right; simp [charListLe]
    | cons y ys =>
      simp only [charListLe]
      rcases Nat.lt_trichotomy x.toNat y.toNat with h | h | h
      · left; simp [h]
      · have h1 : ¬ x.toNat < y.toNat := by omega
        have h2 : ¬ y.toNat < x.toNat := by omega
        simpa [h1, h2] using ih ys
      · right; simp [h]

theorem charListLe_trans (a b c : List Char) (hab : charListLe a b = true)
    (hbc : charListLe b c = true) : charListLe a c = true := by
  induction a generalizing b c with
  | nil => simp [charListLe]
  | cons x xs ih =>
    cases b with
    | nil => simp [charListLe] at hab
    | cons y ys =>
      cases c with
      | nil => simp [charListLe] at hbc
      | cons z zs =>
        simp only [charListLe] at hab hbc ⊢
        by_cases h1 : x.toNat < y.toNat <;> by_cases h2 : y.toNat < z.toNat
        · simp [show x.toNat < z.toNat by omega]
        · by_cases h2' : z.toNat < y.toNat
          · simp [h2, h2'] at hbc
          · simp [show x.toNat < z.toNat by omega]
        · by_cases h1' : y.toNat < x.toNat
          · simp [h1, h1'] at hab
          · simp [show x.toNat < z.toNat by omega]
        · by_cases h1' : y.toNat < x.toNat
          · simp [h1, h1'] at hab
          · by_cases h2' : z.toNat < y.toNat
            · simp [h2, h2'] at hbc
            · have n1 : ¬ x.toNat < z.toNat := by omega
              have n2 : ¬ z.toNat < x.toNat := by omega
              simp [h1, h1'] at hab
              simp [h2, h2'] at hbc
              simpa [n1, n2] using ih ys zs hab hbc

theorem char_eq_of_toNat_eq (a b : Char) (h : a.toNat = b.toNat) : a = b := by
  have ha := Char.ofNat_toNat a
  have hb := Char.ofNat_toNat b
  rw [← ha, ← hb, h]

theorem charListLe_antisymm (a b : List Char) (hab : charListLe a b = true)
    (hba : charListLe b a = true) : a = b := by
  induction a generalizing b with
  | nil =>
    cases b with
    | nil => rfl
    | cons y ys => simp [charListLe] at hba
  | cons x xs ih =>
    cases b with
    | nil => simp [charListLe] at hab
    | cons y ys =>
      simp only [charListLe] at hab hba
      by_cases h1 : x.toNat < y.toNat
      · simp [h1, show ¬ y.toNat < x.toNat by omega] at hba
      · by_cases h1' : y.toNat < x.toNat
        · simp [h1, h1'] at hab
        · simp [h1, h1'] at hab hba
          rw [char_eq_of_toNat_eq x y (by omega), ih ys hab hba]

theorem str_eq_of_toList_eq (a b : String) (h : a.toList = b.toList) : a = b := by
  cases a
  cases b
  simp only [String.toList] at h
  rw [h]

instance : IsTotal String strLe :=
  ⟨fun a b => charListLe_total a.toList b.toList⟩

instance : IsTrans String strLe :=
  ⟨fun a b c hab hbc => charListLe_trans a.toList b.toList c.toList hab hbc⟩

instance : IsAntisymm String strLe :=
  ⟨fun a b hab hba =>
    str_eq_of_toList_eq a b (charListLe_antisymm a.toList b.toList hab hba)⟩

theorem sortStr_eq_of_perm (l1 l2 : List String) (h : l1.Perm l2) :
    sortStr l1 = sortStr l2 :=
  List.eq_of_perm_of_sorted
    ((List.perm_insertionSort strLe l1).trans (h.trans (List.perm_insertionSort strLe l2).symm))
    (List.sorted_insertionSort strLe l1) (List.sorted_insertionSort strLe l2)

/-- A record of `get_recent_orders`; `total` is `none` where the source puts
the empty string. -/
structure RecentRec where
  serial : String
  date : String
  company : String
  product : String
  brand : String
  quantity : String
  price : String
  total : Option ℚ
  deriving DecidableEq, Repr

/-- A record of `get_recent_orders_with_row` (adds the 1-indexed sheet row). -/
structure RecentRecW where
  row : Nat
  serial : String
  date : String
  company : String
  product : String
  brand : String
  quantity : String
  price : String
  total : Option ℚ
  deriving DecidableEq, Repr

/-- Sequencing of a skipping loop whose body can raise (`float` on a
non-empty unparsable cell propagates out of both recent-order readers). -/
def exceptFilterMap {α β : Type} (f : α → Except Unit (Option β)) :
    List α → Except Unit (List β)
  | [] => Except.ok []
  | a :: as =>
    match f a with
    | Except.error e => Except.error e
    | Except.ok none => exceptFilterMap f as
    | Except.ok (some b) => (exceptFilterMap f as).map (fun l => b :: l)

/-- The `total` cell of both recent-order readers:
`float(r[5]) * float(r[6]) if len(r) > 6 and r[5] and r[6] else ""`, where a
parse failure raises (there is no try/except around it in the source). -/
def recentTotal (r : Row) (factor : ℚ) : Except Unit (Option ℚ) :=
  if 6 < r.length ∧ r.getD 5 "" ≠ "" ∧ r.getD 6 "" ≠ "" then
    match parseFloat (r.getD 5 ""), parseFloat (r.getD 6 "") with
    | some q, some p => Except.ok (some (q * p * factor))
    | _, _ => Except.error ()
  else Except.ok none

/-- Loop body of `get_recent_orders` for one row: rows with fewer than two
cells or a blank date are skipped; the total has no GST factor. -/
def recentRowRec (r : Row) : Except Unit (Option RecentRec) :=
  if r.length < 2 ∨ pyStrip (r.getD 1 "") = "" then Except.ok none
  else
    (recentTotal r 1).map (fun t =>
      some { serial := r.getD 0 "", date := r.getD 1 "", company := r.getD 2 "",
             product := r.getD 3 "", brand := r.getD 4 "", quantity := r.getD 5 "",
             price := r.getD 6 "", total := t })

/-- `SheetsClient.get_recent_orders`. -/
def getRecentOrders (rows : List Row) (limit : Nat) : Except Unit (List RecentRec) :=
  if rows.length ≤ 1 then Except.ok []
  else (exceptFilterMap recentRowRec (rows.drop 1)).map (fun l => l.reverse.take limit)

/-- Loop body of `get_recent_orders_with_row` for sheet row `i` (1-indexed,
starting at 2): same skip rule, but the total carries the `1.05` factor. -/
def recentRowRecW (i : Nat) (r : Row) : Except Unit (Option RecentRecW) :=
  if r.length < 2 ∨ pyStrip (r.getD 1 "") = "" then Except.ok none
  else
    (recentTotal r (21 / 20)).map (fun t =>
      some { row := i, serial := r.getD 0 "", date := r.getD 1 "", company := r.getD 2 "",
             product := r.getD 3 "", brand := r.getD 4 "", quantity := r.getD 5 "",
             price := r.getD 6 "", total := t })

/-- Python `enumerate(xs, start)`. -/
def withIdx {α : Type} (start : Nat) : List α → List (Nat × α)
  | [] => []
  | a :: as => (start, a) :: withIdx (start + 1) as

/-- `SheetsClient.get_recent_orders_with_row`. -/
def getRecentOrdersWithRow (rows : List Row) (limit : Nat) : Except Unit (List RecentRecW) :=
  (exceptFilterMap (fun ir => recentRowRecW ir.1 ir.2) (withIdx 2 (rows.drop 1))).map
    (fun l => l.reverse.take limit)

/-- One parsed order line of `/submit` (product, brand, quantity, price). -/
structure Line where
  product : String
  brand : String
  qty : Int
  price : ℚ
  deriving DecidableEq, Repr

/-- Python `<` on strings (strict code-point lexicographic). -/
def strLtB (a b : String) : Bool := ! strLeB b a

/-- Python tuple comparison on `(product, brand, quantity, price)`: the
first unequal component decides. -/
def lineLeB (a b : Line) : Bool :=
  if a.product = b.product then
    if a.brand = b.brand then
      if a.qty = b.qty then decide (a.price ≤ b.price)
      else decide (a.qty < b.qty)
    else strLtB a.brand b.brand
  else strLtB a.product b.product

/-- `lineLeB` as a relation, for sorting. -/
def lineLe (a b : Line) : Prop := lineLeB a b = true

instance : DecidableRel lineLe := fun a b => instDecidableEqBool (lineLeB a b) true

/-- Python `sorted` over order lines. -/
def sortLines (l : List Line) : List Line := List.insertionSort lineLe l

/-- The submission fingerprint of `/submit`:
`sha256(repr((company, tuple(sorted(order_lines)))))`. The hash is modelled
by the hashed data itself (collisions of sha256 are not modelled). -/
def fingerprint (company : String) (lines : List Line) : String × List Line :=
  (company, sortLines lines)

/-- The in-memory state touched by `/submit`: the bounded
`_recent_submissions` deque of (timestamp, fingerprint) and the orders
sheet. -/
structure AppState where
  buf : List (ℚ × (String × List Line))
  orders : List Row
  deriving DecidableEq, Repr

/-- The duplicate test of `/submit`: some recorded entry has the same
fingerprint and is younger than `DEDUP_WINDOW = 5` seconds. -/
def dupHit (buf : List (ℚ × (String × List Line))) (fp : String × List Line) (now : ℚ) :
    Bool :=
  buf.any (fun e => decide (e.2 = fp ∧ now - e.1 < 5))

/-- `deque(maxlen=200).append`: drop the oldest entry when full. -/
def dequeAppend (buf : List (ℚ × (String × List Line))) (e : ℚ × (String × List Line)) :
    List (ℚ × (String × List Line)) :=
  (if 200 ≤ buf.length then buf.drop 1 else buf) ++ [e]

/-- The per-line writes of `/submit`: `sheets.add_order(...)` for each order
line in order. -/
def writeLines (today company : String) (lines : List Line) (sheet : List Row) : List Row :=
  lines.foldl (fun sh l => addOrder today company l.product l.brand l.qty l.price sh) sheet

/-- The deduplication-and-write tail of `/submit` (after the order lines
have been validated and parsed): on a duplicate hit the handler returns
without touching any state; otherwise it records the fingerprint and writes
every line. The Bool is `true` when the submission was rejected. -/
def submitModel (today : String) (now : ℚ) (company : String) (lines : List Line)
    (st : AppState) : Bool × AppState :=
  let fp := fingerprint company lines
  if dupHit st.buf fp now then (true, st)
  else
    (false,
     { buf := dequeAppend st.buf (now, fp),
       orders := writeLines today company lines st.orders })

/-- The product key exactly as claim C3 words it: the input lower-cased with
its (surrounding) whitespace stripped — with no internal-space removal. -/
def productKeyClaimed (s : String) : String := pyLower (pyStrip s)

/-- The product key as amended: lower-cased, stripped, and with every
internal space character removed. -/
def productKeySpec (s : String) : String :=
  String.mk (((pyStripL s.toList).map Char.toLower).filter (fun c => c ≠ ' '))

/-- The company key as claim C3 words it: like the product key but with each
`'&'` expanded to `"and"` before the spaces are removed. -/
def companyKeySpec (s : String) : String :=
  String.mk
    ((((pyStripL s.toList).map Char.toLower).map
        (fun c => if c = '&' then ['a', 'n', 'd'] else [c])).flatten.filter
      (fun c => c ≠ ' '))

theorem flatten_map_dropChar (p : Char) (l : List Char) :
    (l.map (fun c => if c = p then ([] : List Char) else [c])).flatten =
      l.filter (fun c => c ≠ p) := by
  induction l with
  | nil => rfl
  | cons c t ih =>
    by_cases h : c = p
    · simp [h, ih]
    · simp [h, ih]

/-- C3, counterexample: the source's product key `_norm` removes internal
spaces, so it differs from "lower-cased with whitespace stripped" on
`"a b"`. -/
theorem C3_product_key_counterexample :
    norm "a b" = "ab" ∧ productKeyClaimed "a b" = "a b" ∧
      norm "a b" ≠ productKeyClaimed "a b" := by decide

/-- C3 (amended): the product comparison key `_norm` equals the input
stripped, lower-cased, and with every internal space removed; the company
key `_norm_company` additionally expands each `&` to `and` before the space
removal. Both are plain functions of the input, hence deterministic. -/
theorem C3_normalization_keys (s : String) :
    norm s = productKeySpec s ∧ normCompany s = companyKeySpec s := by
  constructor
  · show pyReplaceChar ' ' "" (pyLower (pyStrip s)) = _
    simp only [pyReplaceChar, pyLower, pyStrip, productKeySpec, String.toList]
    rw [flatten_map_dropChar]
  · show pyReplaceChar ' ' "" (pyReplaceChar '&' "and" (pyLower (pyStrip s))) = _
    simp only [pyReplaceChar, pyLower, pyStrip, companyKeySpec, String.toList]
    rw [flatten_map_dropChar]

/-- A client state whose cache holds a (fresh) `orders_rows` entry. -/
def cachePrimedState : ClientState :=
  { orders := [["Order Number", "Date"], ["1", "2024-01-01", "Acme", "W", "B", "5", "2"]],
    dispatches := [["Date", "Company", "Product", "Quantity", "Order Number"]],
    cache := [("orders_rows", [["Order Number", "Date"]], 0)] }

/-- C2, at the failing input: `add_order` never calls `_invalidate_cache`,
so it leaves the primed cache intact, while every other write operation
(update, soft delete, restore, dispatch) empties the whole cache as the
claim demands. -/
theorem C2_addOrder_leaves_cache (today : String) :
    (addOrderSt today "Acme" "W" "B" 5 2 cachePrimedState).cache = cachePrimedState.cache ∧
      cachePrimedState.cache ≠ [] ∧
      (updateOrderRowSt 2 "W" "B" 5 2 cachePrimedState).cache = [] ∧
      (deleteOrderRowSt 2 cachePrimedState).cache = [] ∧
      (restoreOrderRowSt 2 ⟨"d", "c", "p", "b", "5", "2"⟩ cachePrimedState).cache = [] ∧
      (addDispatchSt today "Acme" "W" 5 "1" cachePrimedState).cache = [] := by
  refine ⟨rfl, ?_, rfl, rfl, rfl, rfl⟩
  intro h
  exact List.noConfusion h

/-- C10: a submission rejected by the duplicate test returns unchanged
state — nothing is written to the sheet and no (timestamp, fingerprint)
entry is appended, so the rejection does not extend the original 5-second
suppression window. -/
theorem C10_rejected_duplicate_changes_nothing (today : String) (now : ℚ) (company : String)
    (lines : List Line) (st : AppState)
    (h : dupHit st.buf (fingerprint company lines) now = true) :
    submitModel today now company lines st = (true, st) := by
  simp [submitModel, h]

/-- C10 witness: a concrete rejected duplicate, with the start state handed
back untouched. -/
theorem C10_witness :
    dupHit [(7, fingerprint "Acme" [⟨"w", "b", 2, 3⟩])] (fingerprint "Acme" [⟨"w", "b", 2, 3⟩]) 10 =
        true ∧
      submitModel "2026-01-01" 10 "Acme" [⟨"w", "b", 2, 3⟩]
          { buf := [(7, fingerprint "Acme" [⟨"w", "b", 2, 3⟩])], orders := [[]] } =
        (true, { buf := [(7, fingerprint "Acme" [⟨"w", "b", 2, 3⟩])], orders := [[]] }) := by
  refine ⟨by with_unfolding_all rfl, ?_⟩
  exact C10_rejected_duplicate_changes_nothing "2026-01-01" 10 "Acme" [⟨"w", "b", 2, 3⟩]
    { buf := [(7, fingerprint "Acme" [⟨"w", "b", 2, 3⟩])], orders := [[]] }
    (by with_unfolding_all rfl)

theorem strLtB_or (a b : String) (h : ¬ a = b) :
    strLtB a b = true ∨ strLtB b a = true := by
  by_cases h1 : strLeB b a = true
  · by_cases h2 : strLeB a b = true
    · exact absurd (str_eq_of_toList_eq a b (charListLe_antisymm _ _ h2 h1)) h
    · right
      simp only [strLtB, Bool.not_eq_true', Bool.not_eq_eq_eq_not, Bool.not_true]
      exact Bool.not_eq_true _ ▸ (by simpa using h2)
  · left
    simp only [strLtB]
    simp [Bool.not_eq_true] at h1 ⊢
    exact h1

theorem strLtB_asymm (a b : String) (h : strLtB a b = true) : strLtB b a = false := by
  simp only [strLtB, Bool.not_eq_true'] at h
  rcases charListLe_total a.toList b.toList with h2 | h2
  · have h3 : strLeB a b = true := h2
    simp [strLtB, h3]
  · exact absurd (show strLeB b a = true from h2) (by simp [h])

theorem strLtB_trans (a b c : String) (h1 : strLtB a b = true) (h2 : strLtB b c = true) :
    strLtB a c = true := by
  simp only [strLtB, Bool.not_eq_true'] at h1 h2 ⊢
  by_contra hca
  have hca' : strLeB c a = true := by
    cases hh : strLeB c a
    · exact absurd hh hca
    · rfl
  rcases charListLe_total a.toList b.toList with hab | hba
  · have : strLeB c b = true :=
      charListLe_trans c.toList a.toList b.toList hca' hab
    simp [strLeB] at h2 this
    exact absurd this (by simp [h2])
  · simp [strLeB] at h1 hba
    exact absurd hba (by simp [h1])

theorem lineLe_total (a b : Line) : lineLe a b ∨ lineLe b a := by
  by_cases hp : a.product = b.product
  · by_cases hb : a.brand = b.brand
    · by_cases hq : a.qty = b.qty
      · rcases le_total a.price b.price with h | h
        · left; simp [lineLe, lineLeB, hp, hb, hq, h]
        · right; simp [lineLe, lineLeB, hp.symm, hb.symm, hq.symm, h]
      · rcases lt_or_gt_of_ne hq with h | h
        · left; simp [lineLe, lineLeB, hp, hb, hq, h]
        · right; simp [lineLe, lineLeB, hp.symm, hb.symm, Ne.symm hq, h]
    · rcases strLtB_or a.brand b.brand hb with h | h
      · left; simp [lineLe, lineLeB, hp, hb, h]
      · right; simp [lineLe, lineLeB, hp.symm, Ne.symm hb, h]
  · rcases strLtB_or a.product b.product hp with h | h
    · left; simp [lineLe, lineLeB, hp, h]
    · right; simp [lineLe, lineLeB, Ne.symm hp, h]

theorem lineLe_trans (a b c : Line) (hab : lineLe a b) (hbc : lineLe b c) : lineLe a c := by
  unfold lineLe lineLeB at hab hbc ⊢
  by_cases hp1 : a.product = b.product <;> by_cases hp2 : b.product = c.product
  · rw [if_pos hp1] at hab
    rw [if_pos hp2] at hbc
    rw [if_pos (hp1.trans hp2)]
    by_cases hb1 : a.brand = b.brand <;> by_cases hb2 : b.brand = c.brand
    · rw [if_pos hb1] at hab
      rw [if_pos hb2] at hbc
      rw [if_pos (hb1.trans hb2)]
      by_cases hq1 : a.qty = b.qty <;> by_cases hq2 : b.qty = c.qty
      · rw [if_pos hq1] at hab
        rw [if_pos hq2] at hbc
        rw [if_pos (hq1.trans hq2)]
        simp only [decide_eq_true_eq] at hab hbc ⊢
        exact le_trans hab hbc
      · rw [if_pos hq1] at hab
        rw [if_neg hq2] at hbc
        simp only [decide_eq_true_eq] at hbc
        rw [if_neg (by omega : ¬ a.qty = c.qty)]
        simp only [decide_eq_true_eq]
        omega
      · rw [if_neg hq1] at hab
        rw [if_pos hq2] at hbc
        simp only [decide_eq_true_eq] at hab
        rw [if_neg (by omega : ¬ a.qty = c.qty)]
        simp only [decide_eq_true_eq]
        omega
      · rw [if_neg hq1] at hab
        rw [if_neg hq2] at hbc
        simp only [decide_eq_true_eq] at hab hbc
        rw [if_neg (by omega : ¬ a.qty = c.qty)]
        simp only [decide_eq_true_eq]
        omega
    · rw [if_pos hb1] at hab
      rw [if_neg hb2] at hbc
      rw [if_neg (hb1 ▸ hb2)]
      exact hb1 ▸ hbc
    · rw [if_neg hb1] at hab
      rw [if_pos hb2] at hbc
      rw [if_neg (fun h => hb1 (h.trans hb2.symm))]
      exact hb2 ▸ hab
    · rw [if_neg hb1] at hab
      rw [if_neg hb2] at hbc
      have hac := strLtB_trans _ _ _ hab hbc
      have : ¬ a.brand = c.brand := by
        intro h
        have := strLtB_asymm _ _ hbc
        rw [← h] at this
        rw [this] at hab
        exact Bool.noConfusion hab
      rw [if_neg this]
      exact hac
  · rw [if_pos hp1] at hab
    rw [if_neg hp2] at hbc
    rw [if_neg (hp1 ▸ hp2)]
    exact hp1 ▸ hbc
  · rw [if_neg hp1] at hab
    rw [if_pos hp2] at hbc
    rw [if_neg (fun h => hp1 (h.trans hp2.symm))]
    exact hp2 ▸ hab
  · rw [if_neg hp1] at hab
    rw [if_neg hp2] at hbc
    have hac := strLtB_trans _ _ _ hab hbc
    have : ¬ a.product = c.product := by
      intro h
      have := strLtB_asymm _ _ hbc
      rw [← h] at this
      rw [this] at hab
      exact Bool.noConfusion hab
    rw [if_neg this]
    exact hac

theorem lineLe_antisymm (a b : Line) (hab : lineLe a b) (hba : lineLe b a) : a = b := by
  unfold lineLe lineLeB at hab hba
  by_cases hp : a.product = b.product
  · rw [if_pos hp] at hab
    rw [if_pos hp.symm] at hba
    by_cases hb : a.brand = b.brand
    · rw [if_pos hb] at hab
      rw [if_pos hb.symm] at hba
      by_cases hq : a.qty = b.qty
      · rw [if_pos hq] at hab
        rw [if_pos hq.symm] at hba
        simp only [decide_eq_true_eq] at hab hba
        have hpr : a.price = b.price := le_antisymm hab hba
        cases a
        cases b
        simp_all
      · rw [if_neg hq] at hab
        rw [if_neg (Ne.symm hq)] at hba
        simp only [decide_eq_true_eq] at hab hba
        omega
    · rw [if_neg hb] at hab
      rw [if_neg (Ne.symm hb)] at hba
      have := strLtB_asymm _ _ hab
      rw [this] at hba
      exact Bool.noConfusion hba
  · rw [if_neg hp] at hab
    rw [if_neg (Ne.symm hp)] at hba
    have := strLtB_asymm _ _ hab
    rw [this] at hba
    exact Bool.noConfusion hba

instance : IsTotal Line lineLe := ⟨lineLe_total⟩

instance : IsTrans Line lineLe := ⟨lineLe_trans⟩

instance : IsAntisymm Line lineLe := ⟨lineLe_antisymm⟩

/-- Permuted line lists have the same Python `sorted` image, hence the same
fingerprint. -/
theorem sortLines_eq_of_perm (l1 l2 : List Line) (h : l1.Perm l2) :
    sortLines l1 = sortLines l2 :=
  List.eq_of_perm_of_sorted
    ((List.perm_insertionSort lineLe l1).trans (h.trans (List.perm_insertionSort lineLe l2).symm))
    (List.sorted_insertionSort lineLe l1) (List.sorted_insertionSort lineLe l2)

/-- C4: two submissions with the same company and permuted (= identical
multiset of) order lines produce the same fingerprint; if the first's
fingerprint is still in the bounded recent-submission buffer and the second
arrives less than 5 seconds later, the second is rejected with all state
unchanged (nothing is written); if every buffered entry carrying that
fingerprint is at least 5 seconds old, the submission is recorded and every
line is written to the sheet. -/
theorem C4_submit_dedup (today company : String) (l1 l2 : List Line) (st : AppState)
    (t1 t2 : ℚ) (hperm : l1.Perm l2) :
    ((t1, fingerprint company l1) ∈ st.buf → t2 - t1 < 5 →
      submitModel today t2 company l2 st = (true, st)) ∧
    ((∀ e ∈ st.buf, e.2 = fingerprint company l2 → 5 ≤ t2 - e.1) →
      submitModel today t2 company l2 st =
        (false,
         { buf := dequeAppend st.buf (t2, fingerprint company l2),
           orders := writeLines today company l2 st.orders })) := by
  have hfp : fingerprint company l1 = fingerprint company l2 := by
    unfold fingerprint
    rw [sortLines_eq_of_perm l1 l2 hperm]
  constructor
  · intro hmem hlt
    have hd : dupHit st.buf (fingerprint company l2) t2 = true := by
      unfold dupHit
      rw [List.any_eq_true]
      refine ⟨(t1, fingerprint company l1), hmem, ?_⟩
      simp only [decide_eq_true_eq]
      exact ⟨hfp, hlt⟩
    simp [submitModel, hd]
  · intro hall
    have hd : dupHit st.buf (fingerprint company l2) t2 = false := by
      unfold dupHit
      rw [List.any_eq_false]
      intro e he
      simp only [decide_eq_true_eq, not_and, not_lt]
      intro hefp
      exact hall e he hefp
    simp [submitModel, hd]

/-- C4 witness: a concrete duplicate 3 seconds after the original is
dropped, and the same submission 9 seconds after the original is written. -/
theorem C4_witness :
    (submitModel "2026-01-01" 3 "Acme" [⟨"x", "", 1, 2⟩, ⟨"w", "b", 2, 3⟩]
        { buf := [(0, fingerprint "Acme" [⟨"w", "b", 2, 3⟩, ⟨"x", "", 1, 2⟩])], orders := [[]] } =
      (true,
       { buf := [(0, fingerprint "Acme" [⟨"w", "b", 2, 3⟩, ⟨"x", "", 1, 2⟩])], orders := [[]] })) ∧
    (submitModel "2026-01-01" 9 "Acme" [⟨"x", "", 1, 2⟩, ⟨"w", "b", 2, 3⟩]
        { buf := [(0, fingerprint "Acme" [⟨"w", "b", 2, 3⟩, ⟨"x", "", 1, 2⟩])], orders := [[]] } =
      (false,
       { buf := dequeAppend [(0, fingerprint "Acme" [⟨"w", "b", 2, 3⟩, ⟨"x", "", 1, 2⟩])]
                  (9, fingerprint "Acme" [⟨"x", "", 1, 2⟩, ⟨"w", "b", 2, 3⟩]),
         orders := writeLines "2026-01-01" "Acme" [⟨"x", "", 1, 2⟩, ⟨"w", "b", 2, 3⟩] [[]] })) := by
  constructor
  · exact (C4_submit_dedup "2026-01-01" "Acme" [⟨"w", "b", 2, 3⟩, ⟨"x", "", 1, 2⟩]
      [⟨"x", "", 1, 2⟩, ⟨"w", "b", 2, 3⟩]
      { buf := [(0, fingerprint "Acme" [⟨"w", "b", 2, 3⟩, ⟨"x", "", 1, 2⟩])], orders := [[]] }
      0 3 (List.Perm.swap _ _ _)).1 (List.mem_singleton.mpr rfl) (by norm_num)
  · refine (C4_submit_dedup "2026-01-01" "Acme" [⟨"w", "b", 2, 3⟩, ⟨"x", "", 1, 2⟩]
      [⟨"x", "", 1, 2⟩, ⟨"w", "b", 2, 3⟩]
      { buf := [(0, fingerprint "Acme" [⟨"w", "b", 2, 3⟩, ⟨"x", "", 1, 2⟩])], orders := [[]] }
      0 9 (List.Perm.swap _ _ _)).2 ?_
    intro e he _
    rw [List.mem_singleton] at he
    rw [he]
    norm_num

/-- C9: a soft-deleted order row (columns B–G all blank) is emitted by
neither `get_orders_by_party` nor `get_orders_by_product`, provided every
dispatch total is non-negative: its blank quantity parses as ordered = 0, so
remaining ≤ 0 and the row is filtered out even though neither view looks at
the date. -/
theorem C9_soft_deleted_rows_hidden (ds : List Row) (r : Row) (c q : String)
    (hblank : ∀ j, 1 ≤ j → j ≤ 6 → r.getD j "" = "")
    (hpos : ∀ k, 0 ≤ (alGet (dispatchMap ds) k).getD 0) :
    byPartyRow (dispatchMap ds) c r = none ∧ byProductRow (dispatchMap ds) q r = none := by
  have hpq : parseQty "" = none := by decide
  have h5 : r.getD 5 "" = "" := hblank 5 (by omega) (by omega)
  constructor
  · have hd := hpos (pyStrip (r.getD 0 ""), norm (r.getD 3 ""))
    simp only [byPartyRow]
    by_cases hl : r.length < 6
    · rw [if_pos hl]
    · rw [if_neg hl]
      by_cases hc : normCompany (pyStrip (r.getD 2 "")) ≠ normCompany c
      · rw [if_pos hc]
      · rw [if_neg hc, h5, hpq]
        rw [if_pos (by simp only [Option.getD_none]; omega)]
  · have hd := hpos (pyStrip (r.getD 0 ""), norm q)
    simp only [byProductRow]
    by_cases hl : r.length < 6
    · rw [if_pos hl]
    · rw [if_neg hl]
      by_cases hc : norm (r.getD 3 "") ≠ norm q
      · rw [if_pos hc]
      · rw [if_neg hc, h5, hpq]
        rw [if_pos (by simp only [Option.getD_none]; omega)]

/-- C9 witness: a concrete blanked row against an empty dispatch sheet. -/
theorem C9_witness :
    byPartyRow (dispatchMap [[]]) "Acme" ["1001", "", "", "", "", "", ""] = none ∧
      byProductRow (dispatchMap [[]]) "W" ["1001", "", "", "", "", "", ""] = none := by
  refine C9_soft_deleted_rows_hidden [[]] ["1001", "", "", "", "", "", ""] "Acme" "W" ?_ ?_
  · intro j h1 h2
    interval_cases j <;> rfl
  · intro k
    simp [dispatchMap, alGet]

/-- C8: for an order row whose quantity and price cells both parse, the
record of `get_recent_orders_with_row` carries
`total = quantity * price * 1.05` while the record of `get_recent_orders`
for the same row carries `total = quantity * price` with no factor. -/
theorem C8_recent_totals (r : Row) (i : Nat) (q p : ℚ)
    (hdate : pyStrip (r.getD 1 "") ≠ "")
    (hq : parseFloat (r.getD 5 "") = some q) (hp : parseFloat (r.getD 6 "") = some p) :
    recentRowRec r =
      Except.ok (some
        { serial := r.getD 0 "", date := r.getD 1 "", company := r.getD 2 "",
          product := r.getD 3 "", brand := r.getD 4 "", quantity := r.getD 5 "",
          price := r.getD 6 "", total := some (q * p) }) ∧
    recentRowRecW i r =
      Except.ok (some
        { row := i, serial := r.getD 0 "", date := r.getD 1 "", company := r.getD 2 "",
          product := r.getD 3 "", brand := r.getD 4 "", quantity := r.getD 5 "",
          price := r.getD 6 "", total := some (q * p * (21 / 20)) }) := by
  have hfe : parseFloat "" = none := by decide
  have h5ne : r.getD 5 "" ≠ "" := by
    intro h
    rw [h, hfe] at hq
    exact Option.noConfusion hq
  have h6ne : r.getD 6 "" ≠ "" := by
    intro h
    rw [h, hfe] at hp
    exact Option.noConfusion hp
  have h6len : 6 < r.length := by
    by_contra h
    exact h6ne (List.getD_eq_default r "" (by omega))
  have h1ne : r.getD 1 "" ≠ "" := by
    intro h
    apply hdate
    rw [h]
    rfl
  have hlen2 : ¬ r.length < 2 := by
    intro h
    exact h1ne (List.getD_eq_default r "" (by omega))
  have htot : ∀ f : ℚ, recentTotal r f = Except.ok (some (q * p * f)) := by
    intro f
    unfold recentTotal
    rw [if_pos ⟨h6len, h5ne, h6ne⟩, hq, hp]
  constructor
  · unfold recentRowRec
    rw [if_neg (not_or.mpr ⟨hlen2, hdate⟩), htot 1, mul_one]
    rfl
  · unfold recentRowRecW
    rw [if_neg (not_or.mpr ⟨hlen2, hdate⟩), htot (21 / 20)]
    rfl

/-- C8 witness: a concrete row with quantity 3 and price 2: the plain view
totals 6, the row-indexed view totals 6.3. -/
theorem C8_witness :
    recentRowRec ["1", "2024-01-01", "c", "p", "b", "3", "2"] =
      Except.ok (some
        { serial := "1", date := "2024-01-01", company := "c", product := "p", brand := "b",
          quantity := "3", price := "2", total := some ((3 : ℚ) * 2) }) ∧
    recentRowRecW 2 ["1", "2024-01-01", "c", "p", "b", "3", "2"] =
      Except.ok (some
        { row := 2, serial := "1", date := "2024-01-01", company := "c", product := "p",
          brand := "b", quantity := "3", price := "2",
          total := some ((3 : ℚ) * 2 * (21 / 20)) }) :=
  C8_recent_totals ["1", "2024-01-01", "c", "p", "b", "3", "2"] 2 3 2 (by decide)
    (by with_unfolding_all rfl) (by with_unfolding_all rfl)

theorem alGetD_dispatchFold (rows : List Row) (m : List ((String × String) × Int))
    (k : String × String) :
    (alGet
        (rows.foldl
          (fun m r =>
            match dispatchRowKey r with
            | none => m
            | some kq => alSet m kq.1 ((alGet m kq.1).getD 0 + kq.2))
          m)
        k).getD 0 =
      (alGet m k).getD 0 +
        (rows.filterMap dispatchRowKey).foldr (fun kq a => if kq.1 = k then kq.2 + a else a) 0 := by
  induction rows generalizing m with
  | nil => simp
  | cons r rest ih =>
    cases hr : dispatchRowKey r with
    | none => simp [List.foldl_cons, hr, ih]
    | some kq =>
      simp only [List.foldl_cons, hr, List.filterMap_cons, List.foldr_cons]
      rw [ih]
      by_cases hk : kq.1 = k
      · rw [hk, alGet_alSet_self, if_pos rfl]
        simp only [Option.getD_some]
        omega
      · rw [alGet_alSet_ne m kq.1 k _ (fun h => hk h.symm), if_neg hk]

/-- The dispatch dict entry for a key equals the sum over all dispatch rows
sharing that key (the form in which the claims speak about `D`). -/
theorem dispatchMap_getD_eq_sum (ds : List Row) (k : String × String) :
    (alGet (dispatchMap ds) k).getD 0 = dispatchSum ds k := by
  have h := alGetD_dispatchFold (ds.drop 1) [] k
  simpa [dispatchMap, dispatchSum, alGet] using h

/-- C1 (amended): for an order row whose quantity cell parses to `O`, with
`D` the dispatch total for (trimmed serial, normalized product):
`get_orders_by_party` and `get_orders_by_product` emit the row exactly when
the queried company/product matches and `O − D > 0`, reporting
`remaining = O − D`; `get_pivot_data` additionally requires a non-blank date
and passing filters, and computes its pending quantity as `O − D'` where
`D'` is keyed by the row's untrimmed serial. -/
theorem C1_pending_views (ds : List Row) (r : Row) (c qy pf cf : String) (O : Int)
    (hO : parseQty (r.getD 5 "") = some O) :
    (byPartyRow (dispatchMap ds) c r =
      if normCompany (pyStrip (r.getD 2 "")) = normCompany c ∧
          0 < O - dispatchSum ds (pyStrip (r.getD 0 ""), norm (r.getD 3 "")) then
        some { company := pyStrip (r.getD 2 ""), product := r.getD 3 "",
               serial := pyStrip (r.getD 0 ""), ordered := O,
               dispatched := dispatchSum ds (pyStrip (r.getD 0 ""), norm (r.getD 3 "")),
               remaining := O - dispatchSum ds (pyStrip (r.getD 0 ""), norm (r.getD 3 "")),
               price := if 6 < r.length then r.getD 6 "" else "" }
      else none) ∧
    (byProductRow (dispatchMap ds) qy r =
      if norm (r.getD 3 "") = norm qy ∧
          0 < O - dispatchSum ds (pyStrip (r.getD 0 ""), norm (r.getD 3 "")) then
        some { company := r.getD 2 "", product := r.getD 3 "",
               serial := pyStrip (r.getD 0 ""), ordered := O,
               dispatched := dispatchSum ds (pyStrip (r.getD 0 ""), norm (r.getD 3 "")),
               remaining := O - dispatchSum ds (pyStrip (r.getD 0 ""), norm (r.getD 3 "")),
               price := if 6 < r.length then r.getD 6 "" else "" }
      else none) ∧
    (pivotRowContrib (dispatchMap ds) (pyLower pf) (pyLower cf) r =
      if pyStrip (r.getD 1 "") ≠ "" ∧ filterMatch (pyLower pf) (r.getD 3 "") = true ∧
          filterMatch (pyLower cf) (pyStrip (r.getD 2 "")) = true ∧
          0 < O - dispatchSum ds (r.getD 0 "", norm (r.getD 3 "")) then
        some (pyStrip (r.getD 2 ""), r.getD 3 "",
          O - dispatchSum ds (r.getD 0 "", norm (r.getD 3 "")))
      else none) := by
  have h5ne : r.getD 5 "" ≠ "" := by
    intro h
    rw [h] at hO
    exact Option.noConfusion ((show parseQty "" = none by decide) ▸ hO)
  have hlen : ¬ r.length < 6 := by
    intro h
    exact h5ne (List.getD_eq_default r "" (by omega))
  have hsum := dispatchMap_getD_eq_sum ds
  refine ⟨?_, ?_, ?_⟩
  · simp only [byPartyRow, if_neg hlen, hO, Option.getD_some, hsum]
    set D := dispatchSum ds (pyStrip (r.getD 0 ""), norm (r.getD 3 "")) with hD
    by_cases hm : normCompany (pyStrip (r.getD 2 "")) = normCompany c
    · rw [if_neg (not_not_intro hm)]
      by_cases hrem : 0 < O - D
      · have h1 : ¬ O - D ≤ 0 := by omega
        rw [if_neg h1]
        have hA : normCompany (pyStrip (r.getD 2 "")) = normCompany c ∧ 0 < O - D := ⟨hm, hrem⟩
        rw [if_pos hA]
      · have h1 : O - D ≤ 0 := by omega
        rw [if_pos h1]
        have hA : ¬ (normCompany (pyStrip (r.getD 2 "")) = normCompany c ∧ 0 < O - D) :=
          fun h => hrem h.2
        rw [if_neg hA]
    · rw [if_pos hm]
      have hA : ¬ (normCompany (pyStrip (r.getD 2 "")) = normCompany c ∧ 0 < O - D) :=
        fun h => hm h.1
      rw [if_neg hA]
  · simp only [byProductRow, if_neg hlen, hO, Option.getD_some, hsum]
    by_cases hm : norm (r.getD 3 "") = norm qy
    · rw [← hm]
      set D := dispatchSum ds (pyStrip (r.getD 0 ""), norm (r.getD 3 "")) with hD
      rw [if_neg (not_not_intro rfl)]
      by_cases hrem : 0 < O - D
      · have h1 : ¬ O - D ≤ 0 := by omega
        rw [if_neg h1]
        have hA : norm (r.getD 3 "") = norm (r.getD 3 "") ∧ 0 < O - D := ⟨rfl, hrem⟩
        rw [if_pos hA]
      · have h1 : O - D ≤ 0 := by omega
        rw [if_pos h1]
        have hA : ¬ (norm (r.getD 3 "") = norm (r.getD 3 "") ∧ 0 < O - D) := fun h => hrem h.2
        rw [if_neg hA]
    · rw [if_pos hm]
      have hA : ¬ (norm (r.getD 3 "") = norm qy ∧
          0 < O - dispatchSum ds (pyStrip (r.getD 0 ""), norm (r.getD 3 ""))) := fun h => hm h.1
      rw [if_neg hA]
  · simp only [pivotRowContrib, pivotRowContribK, if_neg hlen, hO, Option.getD_some, hsum]
    set D := dispatchSum ds (r.getD 0 "", norm (r.getD 3 "")) with hD
    by_cases hd : pyStrip (r.getD 1 "") = ""
    · rw [if_pos hd]
      have hA : ¬ (pyStrip (r.getD 1 "") ≠ "" ∧ filterMatch (pyLower pf) (r.getD 3 "") = true ∧
          filterMatch (pyLower cf) (pyStrip (r.getD 2 "")) = true ∧ 0 < O - D) :=
        fun h => h.1 hd
      rw [if_neg hA]
    · rw [if_neg hd]
      by_cases hpf : filterMatch (pyLower pf) (r.getD 3 "") = true
      · rw [if_neg (not_not_intro hpf)]
        by_cases hcf : filterMatch (pyLower cf) (pyStrip (r.getD 2 "")) = true
        · rw [if_neg (not_not_intro hcf)]
          by_cases hrem : 0 < O - D
          · have h1 : ¬ O - D ≤ 0 := by omega
            rw [if_neg h1]
            have hA : pyStrip (r.getD 1 "") ≠ "" ∧ filterMatch (pyLower pf) (r.getD 3 "") = true ∧
                filterMatch (pyLower cf) (pyStrip (r.getD 2 "")) = true ∧ 0 < O - D :=
              ⟨hd, hpf, hcf, hrem⟩
            rw [if_pos hA]
          · have h1 : O - D ≤ 0 := by omega
            rw [if_pos h1]
            have hA : ¬ (pyStrip (r.getD 1 "") ≠ "" ∧ filterMatch (pyLower pf) (r.getD 3 "") = true ∧
                filterMatch (pyLower cf) (pyStrip (r.getD 2 "")) = true ∧ 0 < O - D) :=
              fun h => hrem h.2.2.2
            rw [if_neg hA]
        · rw [if_pos (by simpa using hcf)]
          have hA : ¬ (pyStrip (r.getD 1 "") ≠ "" ∧ filterMatch (pyLower pf) (r.getD 3 "") = true ∧
              filterMatch (pyLower cf) (pyStrip (r.getD 2 "")) = true ∧ 0 < O - D) :=
            fun h => hcf h.2.2.1
          rw [if_neg hA]
      · rw [if_pos (by simpa using hpf)]
        have hA : ¬ (pyStrip (r.getD 1 "") ≠ "" ∧ filterMatch (pyLower pf) (r.getD 3 "") = true ∧
            filterMatch (pyLower cf) (pyStrip (r.getD 2 "")) = true ∧ 0 < O - D) :=
          fun h => hpf h.2.1
        rw [if_neg hA]

/-- C1, counterexample to the claim as stated. Scenario 1: an order row with
blank date and quantity 5, no dispatches — remaining = 5 − 0 > 0 and
`get_orders_by_party` shows it, yet `get_pivot_data` omits the row entirely
(its parties list is empty), so "appears in the view's output iff
remaining > 0" fails for the pivot. Scenario 2: an order row whose serial
cell is `"1001 "` with a dispatch of 5 against `"1001"` — the list views
report remaining = 10 − 5 = 5, but the pivot does not strip the serial, so
its cell holds 10 ≠ O − D. -/
theorem C1_counterexample :
    (parseQty "5" = some 5) ∧
    (dispatchSum [[]] ("1", "w") = 0) ∧
    ((getOrdersByParty [[], ["1", "", "Acme", "W", "", "5", "2"]] [[]] "Acme").map
        (fun x => x.remaining) = [5]) ∧
    ((getPivotData [[], ["1", "", "Acme", "W", "", "5", "2"]] [[]] "" "").parties = []) ∧
    ((getOrdersByParty [[], ["1001 ", "2024-01-01", "Acme", "W", "", "10", "2"]]
        [[], ["d", "c", "W", "5", "1001"]] "Acme").map (fun x => x.remaining) = [5]) ∧
    ((getPivotData [[], ["1001 ", "2024-01-01", "Acme", "W", "", "10", "2"]]
        [[], ["d", "c", "W", "5", "1001"]] "" "").pivot = [[10]]) ∧
    (dispatchSum [[], ["d", "c", "W", "5", "1001"]] (pyStrip "1001 ", norm "W") = 5) ∧
    ((5 : Int) ≠ 10) := by decide

/-- C1 witness: a fully dispatched-against row with quantity 10 and dispatch
total 4 is emitted by all three views with remaining 6. -/
theorem C1_witness :
    parseQty "10" = some 10 ∧
      (byPartyRow (dispatchMap [[], ["d", "c", "W", "4", "1001"]]) "acme"
          ["1001", "2024-01-01", "Acme", "W", "B", "10", "2"] =
        if normCompany (pyStrip "Acme") = normCompany "acme" ∧
            0 < 10 - dispatchSum [[], ["d", "c", "W", "4", "1001"]] (pyStrip "1001", norm "W") then
          some { company := pyStrip "Acme", product := "W", serial := pyStrip "1001",
                 ordered := 10,
                 dispatched := dispatchSum [[], ["d", "c", "W", "4", "1001"]]
                   (pyStrip "1001", norm "W"),
                 remaining := 10 - dispatchSum [[], ["d", "c", "W", "4", "1001"]]
                   (pyStrip "1001", norm "W"),
                 price := if 6 < (["1001", "2024-01-01", "Acme", "W", "B", "10", "2"] : Row).length
                   then "2" else "" }
        else none) ∧
      (byProductRow (dispatchMap [[], ["d", "c", "W", "4", "1001"]]) "w"
          ["1001", "2024-01-01", "Acme", "W", "B", "10", "2"] =
        if norm "W" = norm "w" ∧
            0 < 10 - dispatchSum [[], ["d", "c", "W", "4", "1001"]] (pyStrip "1001", norm "W") then
          some { company := "Acme", product := "W", serial := pyStrip "1001", ordered := 10,
                 dispatched := dispatchSum [[], ["d", "c", "W", "4", "1001"]]
                   (pyStrip "1001", norm "W"),
                 remaining := 10 - dispatchSum [[], ["d", "c", "W", "4", "1001"]]
                   (pyStrip "1001", norm "W"),
                 price := if 6 < (["1001", "2024-01-01", "Acme", "W", "B", "10", "2"] : Row).length
                   then "2" else "" }
        else none) ∧
      (pivotRowContrib (dispatchMap [[], ["d", "c", "W", "4", "1001"]]) (pyLower "") (pyLower "")
          ["1001", "2024-01-01", "Acme", "W", "B", "10", "2"] =
        if pyStrip "2024-01-01" ≠ "" ∧ filterMatch (pyLower "") "W" = true ∧
            filterMatch (pyLower "") (pyStrip "Acme") = true ∧
            0 < 10 - dispatchSum [[], ["d", "c", "W", "4", "1001"]] ("1001", norm "W") then
          some (pyStrip "Acme", "W",
            10 - dispatchSum [[], ["d", "c", "W", "4", "1001"]] ("1001", norm "W"))
        else none) :=
  ⟨by decide,
   C1_pending_views [[], ["d", "c", "W", "4", "1001"]]
     ["1001", "2024-01-01", "Acme", "W", "B", "10", "2"] "acme" "w" "" "" 10 (by decide)⟩

theorem getD_set_self {α : Type} (l : List α) (n : Nat) (a d : α) (h : n < l.length) :
    (l.set n a).getD n d = a := by
  induction l generalizing n with
  | nil => simp at h
  | cons x t ih =>
    cases n with
    | zero => rfl
    | succ m => exact ih m (by simpa using h)

theorem getD_set_ne {α : Type} (l : List α) (n m : Nat) (a d : α) (h : m ≠ n) :
    (l.set n a).getD m d = l.getD m d := by
  induction l generalizing n m with
  | nil => simp
  | cons x t ih =>
    cases n with
    | zero =>
      cases m with
      | zero => exact absurd rfl h
      | succ k => rfl
    | succ n' =>
      cases m with
      | zero => rfl
      | succ k => exact ih n' k (by omega)

theorem getD_append_self {α : Type} (l : List α) (x d : α) :
    (l ++ [x]).getD l.length d = x := by
  induction l with
  | nil => rfl
  | cons y t ih => simp [ih]

theorem getD_append_lt {α : Type} (l : List α) (x d : α) (j : Nat) (h : j < l.length) :
    (l ++ [x]).getD j d = l.getD j d := by
  induction l generalizing j with
  | nil => simp at h
  | cons y t ih =>
    cases j with
    | zero => rfl
    | succ k => exact ih k (by simpa using h)

theorem getD_append_gt {α : Type} (l : List α) (x d : α) (j : Nat) (h : l.length < j) :
    (l ++ [x]).getD j d = d := by
  induction l generalizing j with
  | nil =>
    cases j with
    | zero => omega
    | succ k => simp [List.getD]
  | cons y t ih =>
    cases j with
    | zero => omega
    | succ k => exact ih k (by simpa using h)

theorem getD_drop_one {α : Type} (l : List α) (i : Nat) (d : α) :
    (l.drop 1).getD i d = l.getD (i + 1) d := by
  cases l with
  | nil => rfl
  | cons x t => rfl

theorem firstBlankIdx_some (l : List Row) (i : Nat) (h : firstBlankIdx l = some i) :
    i < l.length ∧ blankDateRow (l.getD i []) = true ∧
      ∀ j, j < i → blankDateRow (l.getD j []) = false := by
  induction l generalizing i with
  | nil => exact Option.noConfusion h
  | cons r rest ih =>
    by_cases hb : blankDateRow r = true
    · rw [show firstBlankIdx (r :: rest) = some 0 by simp [firstBlankIdx, hb]] at h
      cases h
      exact ⟨by simp, hb, fun j hj => absurd hj (by omega)⟩
    · rw [show firstBlankIdx (r :: rest) = (firstBlankIdx rest).map (· + 1) by
        simp [firstBlankIdx, hb]] at h
      cases hfb : firstBlankIdx rest with
      | none => rw [hfb] at h; exact Option.noConfusion h
      | some i' =>
        rw [hfb] at h
        simp only [Option.map_some'] at h
        cases h
        obtain ⟨h1, h2, h3⟩ := ih i' hfb
        refine ⟨by simp; omega, h2, fun j hj => ?_⟩
        cases j with
        | zero => simpa using hb
        | succ k => exact h3 k (by omega)

theorem firstBlankIdx_none (l : List Row) (h : firstBlankIdx l = none) :
    ∀ j, j < l.length → blankDateRow (l.getD j []) = false := by
  induction l with
  | nil => intro j hj; simp at hj
  | cons r rest ih =>
    by_cases hb : blankDateRow r = true
    · rw [show firstBlankIdx (r :: rest) = some 0 by simp [firstBlankIdx, hb]] at h
      exact Option.noConfusion h
    · rw [show firstBlankIdx (r :: rest) = (firstBlankIdx rest).map (· + 1) by
        simp [firstBlankIdx, hb]] at h
      cases hfb : firstBlankIdx rest with
      | some i' => rw [hfb] at h; exact Option.noConfusion h
      | none =>
        intro j hj
        cases j with
        | zero => simpa using hb
        | succ k => exact ih hfb k (by simpa using hj)

/-- C6: `add_order` writes `[today, company, product, brand, quantity,
price]` into columns B–G of the first data row whose date cell is blank
(scanning from the row after the header); if every data row has a non-blank
date, it writes to the row immediately after the last row. No other row is
modified, and the sheet only grows when the write lands past the end. -/
theorem C6_addOrder_writes_first_blank (today c p b : String) (q : Int) (pr : ℚ)
    (sheet : List Row) :
    ((2 ≤ addOrderTarget sheet ∧ addOrderTarget sheet ≤ sheet.length ∧
        blankDateRow (sheet.getD (addOrderTarget sheet - 1) []) = true ∧
        ∀ j, 1 ≤ j → j < addOrderTarget sheet - 1 →
          blankDateRow (sheet.getD j []) = false) ∨
      (addOrderTarget sheet = sheet.length + 1 ∧
        ∀ j, 1 ≤ j → j < sheet.length → blankDateRow (sheet.getD j []) = false)) ∧
    (addOrder today c p b q pr sheet).getD (addOrderTarget sheet - 1) [] =
      setRange (sheet.getD (addOrderTarget sheet - 1) []) 1
        [today, c, p, b, Int.repr q, ratRepr pr] ∧
    (∀ j, j ≠ addOrderTarget sheet - 1 →
      (addOrder today c p b q pr sheet).getD j [] = sheet.getD j []) ∧
    (addOrder today c p b q pr sheet).length = max sheet.length (addOrderTarget sheet) := by
  unfold addOrder addOrderTarget
  cases hfb : firstBlankIdx (sheet.drop 1) with
  | some i =>
    dsimp only
    obtain ⟨h1, h2, h3⟩ := firstBlankIdx_some (sheet.drop 1) i hfb
    rw [List.length_drop] at h1
    have hlen1 : 1 ≤ sheet.length := by omega
    have hblank : blankDateRow (sheet.getD (i + 1) []) = true := by
      rw [← getD_drop_one]; exact h2
    have htlt : i + 2 - 1 < sheet.length := by omega
    unfold sheetUpdateRange
    rw [if_pos htlt]
    refine ⟨Or.inl ⟨by omega, by omega, by simpa using hblank, ?_⟩, ?_, ?_, ?_⟩
    · intro j hj1 hj2
      have := h3 (j - 1) (by omega)
      rw [getD_drop_one] at this
      simpa [show j - 1 + 1 = j by omega] using this
    · exact getD_set_self sheet (i + 2 - 1) _ [] htlt
    · intro j hj
      exact getD_set_ne sheet (i + 2 - 1) j _ [] hj
    · rw [List.length_set]
      omega
  | none =>
    dsimp only
    have hall := firstBlankIdx_none (sheet.drop 1) hfb
    rw [List.length_drop] at hall
    unfold sheetUpdateRange
    rw [if_neg (by omega)]
    have hrepl : sheet.length + 1 - 1 - sheet.length = 0 := by omega
    rw [hrepl, List.replicate_zero, List.append_nil]
    have hout : sheet.getD (sheet.length + 1 - 1) [] = [] :=
      List.getD_eq_default sheet [] (by omega)
    refine ⟨Or.inr ⟨rfl, ?_⟩, ?_, ?_, ?_⟩
    · intro j hj1 hj2
      have := hall (j - 1) (by omega)
      rw [getD_drop_one] at this
      simpa [show j - 1 + 1 = j by omega] using this
    · rw [hout]
      simp [getD_append_self]
    · intro j hj
      rcases Nat.lt_or_ge j sheet.length with hlt | hge
      · exact getD_append_lt sheet _ [] j hlt
      · have hgt : sheet.length < j := by omega
        rw [getD_append_gt sheet _ [] j hgt, List.getD_eq_default sheet [] (by omega)]
    · simp

/-- A sheet with a soft-deleted gap at data row 2 (sheet row 3). -/
def gapSheet : List Row :=
  [["Order Number", "Date"], ["1", "2024-01-01", "Acme", "W", "B", "5", "2"],
   ["2", "", "", "", "", "", ""], ["3", "2024-01-02", "Bcme", "V", "B", "7", "3"]]

/-- C6 witness: on `gapSheet` the target row is 3 (the blanked row), and the
write lands there leaving all other rows unchanged. -/
theorem C6_witness :
    addOrderTarget gapSheet = 3 ∧
      (((2 ≤ addOrderTarget gapSheet ∧ addOrderTarget gapSheet ≤ gapSheet.length ∧
          blankDateRow (gapSheet.getD (addOrderTarget gapSheet - 1) []) = true ∧
          ∀ j, 1 ≤ j → j < addOrderTarget gapSheet - 1 →
            blankDateRow (gapSheet.getD j []) = false) ∨
        (addOrderTarget gapSheet = gapSheet.length + 1 ∧
          ∀ j, 1 ≤ j → j < gapSheet.length → blankDateRow (gapSheet.getD j []) = false)) ∧
      (addOrder "2026-01-01" "Acme" "W" "B" 5 2 gapSheet).getD (addOrderTarget gapSheet - 1) [] =
        setRange (gapSheet.getD (addOrderTarget gapSheet - 1) []) 1
          ["2026-01-01", "Acme", "W", "B", Int.repr 5, ratRepr 2] ∧
      (∀ j, j ≠ addOrderTarget gapSheet - 1 →
        (addOrder "2026-01-01" "Acme" "W" "B" 5 2 gapSheet).getD j [] = gapSheet.getD j []) ∧
      (addOrder "2026-01-01" "Acme" "W" "B" 5 2 gapSheet).length =
        max gapSheet.length (addOrderTarget gapSheet)) :=
  ⟨by decide, C6_addOrder_writes_first_blank "2026-01-01" "Acme" "W" "B" 5 2 gapSheet⟩

theorem getD_drop {α : Type} (l : List α) (m i : Nat) (d : α) :
    (l.drop m).getD i d = l.getD (m + i) d := by
  induction m generalizing l with
  | zero => simp
  | succ k ih =>
    cases l with
    | nil => simp [List.getD]
    | cons x t =>
      rw [List.drop_succ_cons, ih]
      have : k + 1 + i = (k + i) + 1 := by omega
      rw [this]
      rfl

theorem drop_one_set {α : Type} (l : List α) (i : Nat) (a : α) (h : 1 ≤ i) :
    (l.set i a).drop 1 = (l.drop 1).set (i - 1) a := by
  cases l with
  | nil => simp
  | cons x t =>
    cases i with
    | zero => omega
    | succ k => simp

theorem filterMap_set_congr {α β : Type} (f : α → Option β) (l : List α) (i : Nat) (a d : α)
    (hi : i < l.length) (hf : f a = f (l.getD i d)) :
    (l.set i a).filterMap f = l.filterMap f := by
  induction l generalizing i with
  | nil => simp at hi
  | cons x t ih =>
    cases i with
    | zero =>
      have : f a = f x := hf
      simp only [List.set_cons_zero, List.filterMap_cons, this]
    | succ k =>
      simp only [List.set_cons_succ, List.filterMap_cons]
      rw [ih k (by simpa using hi) hf]

theorem byPartyRow_congr (dm : List ((String × String) × Int)) (c : String) (r r' : Row)
    (hlt : r.length < 6 ↔ r'.length < 6)
    (hg : ∀ j, r.getD j "" = r'.getD j "")
    (hp : (if 6 < r.length then r.getD 6 "" else "") =
      (if 6 < r'.length then r'.getD 6 "" else "")) :
    byPartyRow dm c r = byPartyRow dm c r' := by
  unfold byPartyRow
  by_cases h : r.length < 6
  · rw [if_pos h, if_pos (hlt.mp h)]
  · rw [if_neg h, if_neg (fun h' => h (hlt.mpr h')), hp, hg 0, hg 2, hg 3, hg 5]

theorem byProductRow_congr (dm : List ((String × String) × Int)) (q : String) (r r' : Row)
    (hlt : r.length < 6 ↔ r'.length < 6)
    (hg : ∀ j, r.getD j "" = r'.getD j "")
    (hp : (if 6 < r.length then r.getD 6 "" else "") =
      (if 6 < r'.length then r'.getD 6 "" else "")) :
    byProductRow dm q r = byProductRow dm q r' := by
  unfold byProductRow
  by_cases h : r.length < 6
  · rw [if_pos h, if_pos (hlt.mp h)]
  · rw [if_neg h, if_neg (fun h' => h (hlt.mpr h')), hp, hg 0, hg 2, hg 3, hg 5]

theorem pivotRowContrib_congr (dm : List ((String × String) × Int)) (pf cf : String) (r r' : Row)
    (hlt : r.length < 6 ↔ r'.length < 6)
    (hg : ∀ j, r.getD j "" = r'.getD j "") :
    pivotRowContrib dm pf cf r = pivotRowContrib dm pf cf r' := by
  unfold pivotRowContrib pivotRowContribK
  by_cases h : r.length < 6
  · rw [if_pos h, if_pos (hlt.mp h)]
  · rw [if_neg h, if_neg (fun h' => h (hlt.mpr h')), hg 0, hg 1, hg 2, hg 3, hg 5]

/-- The snapshot that `C7` restores from: the row's previous B–G values
(missing cells read as `""`, as in the records the UI captures). -/
def snapOf (r : Row) : Snapshot :=
  { date := r.getD 1 "", company := r.getD 2 "", product := r.getD 3 "",
    brand := r.getD 4 "", quantity := r.getD 5 "", price := r.getD 6 "" }

/-- C7: soft-deleting a (full, ≥ 6 cell) order row and then restoring it
from a snapshot of its previous field values leaves every reconciliation
view — by party, by product, and the pivot — exactly as before the delete. -/
theorem C7_delete_restore_roundtrip (orders ds : List Row) (n : Nat)
    (h2 : 2 ≤ n) (hn : n ≤ orders.length)
    (hlen : 6 ≤ (orders.getD (n - 1) []).length) :
    (∀ c, getOrdersByParty
        (restoreOrderSheet n (snapOf (orders.getD (n - 1) [])) (deleteOrderSheet n orders)) ds c =
      getOrdersByParty orders ds c) ∧
    (∀ p, getOrdersByProduct
        (restoreOrderSheet n (snapOf (orders.getD (n - 1) [])) (deleteOrderSheet n orders)) ds p =
      getOrdersByProduct orders ds p) ∧
    (∀ pf cf, getPivotData
        (restoreOrderSheet n (snapOf (orders.getD (n - 1) [])) (deleteOrderSheet n orders)) ds pf cf =
      getPivotData orders ds pf cf) := by
  have hidx : n - 1 < orders.length := by omega
  obtain ⟨x, t, hxt⟩ : ∃ x t, orders.getD (n - 1) [] = x :: t := by
    cases h : orders.getD (n - 1) [] with
    | nil => rw [h] at hlen; simp at hlen
    | cons x t => exact ⟨x, t, rfl⟩
  have htlen : 5 ≤ t.length := by
    rw [hxt] at hlen
    simp at hlen
    omega
  have hdel : deleteOrderSheet n orders =
      orders.set (n - 1) (setRange (x :: t) 1 ["", "", "", "", "", ""]) := by
    unfold deleteOrderSheet sheetUpdateRange
    rw [if_pos hidx, hxt]
  have hsr1 : setRange (x :: t) 1 ["", "", "", "", "", ""] =
      x :: ["", "", "", "", "", ""] ++ t.drop 6 := by
    unfold setRange padTo
    simp
  have hres : restoreOrderSheet n (snapOf (orders.getD (n - 1) [])) (deleteOrderSheet n orders) =
      orders.set (n - 1)
        (setRange (x :: ["", "", "", "", "", ""] ++ t.drop 6) 1
          [(x :: t).getD 1 "", (x :: t).getD 2 "", (x :: t).getD 3 "", (x :: t).getD 4 "",
           (x :: t).getD 5 "", (x :: t).getD 6 ""]) := by
    rw [hdel, hsr1]
    unfold restoreOrderSheet sheetUpdateRange snapOf
    rw [if_pos (by rw [List.length_set]; exact hidx)]
    rw [getD_set_self orders (n - 1) _ [] hidx, List.set_set, hxt]
  have hsr2 : setRange (x :: ["", "", "", "", "", ""] ++ t.drop 6) 1
      [(x :: t).getD 1 "", (x :: t).getD 2 "", (x :: t).getD 3 "", (x :: t).getD 4 "",
       (x :: t).getD 5 "", (x :: t).getD 6 ""] =
      x :: [t.getD 0 "", t.getD 1 "", t.getD 2 "", t.getD 3 "", t.getD 4 "", t.getD 5 ""] ++
        t.drop 6 := by
    unfold setRange padTo
    simp [List.getD]
  have hgd : ∀ j, (x :: t).getD j "" =
      (x :: [t.getD 0 "", t.getD 1 "", t.getD 2 "", t.getD 3 "", t.getD 4 "",
        t.getD 5 ""] ++ t.drop 6).getD j "" := by
    intro j
    match j with
    | 0 => rfl
    | 1 => rfl
    | 2 => rfl
    | 3 => rfl
    | 4 => rfl
    | 5 => rfl
    | 6 => rfl
    | (k + 7) =>
      show t.getD (k + 6) "" = (t.drop 6).getD k ""
      rw [getD_drop, Nat.add_comm k 6]
  have hlen' : (x :: [t.getD 0 "", t.getD 1 "", t.getD 2 "", t.getD 3 "", t.getD 4 "",
      t.getD 5 ""] ++ t.drop 6).length = 7 + (t.length - 6) := by
    simp
    omega
  have hlt : ((x :: t).length < 6) ↔
      ((x :: [t.getD 0 "", t.getD 1 "", t.getD 2 "", t.getD 3 "", t.getD 4 "",
        t.getD 5 ""] ++ t.drop 6).length < 6) := by
    rw [hlen']
    simp
    omega
  have hp : (if 6 < (x :: t).length then (x :: t).getD 6 "" else "") =
      (if 6 < (x :: [t.getD 0 "", t.getD 1 "", t.getD 2 "", t.getD 3 "", t.getD 4 "",
        t.getD 5 ""] ++ t.drop 6).length then
        (x :: [t.getD 0 "", t.getD 1 "", t.getD 2 "", t.getD 3 "", t.getD 4 "",
          t.getD 5 ""] ++ t.drop 6).getD 6 ""
      else "") := by
    rw [hlen']
    by_cases h6 : 6 ≤ t.length
    · rw [if_pos (by simp; omega), if_pos (by omega)]
      exact hgd 6
    · have ht5 : t.length = 5 := by omega
      rw [if_neg (by simp; omega), if_pos (by omega)]
      show "" = t.getD 5 ""
      rw [List.getD_eq_default t "" (by omega)]
  have hdropidx : (orders.drop 1).getD (n - 1 - 1) [] = x :: t := by
    rw [getD_drop_one, show n - 1 - 1 + 1 = n - 1 from by omega, hxt]
  have hdroplen : n - 1 - 1 < (orders.drop 1).length := by
    rw [List.length_drop]
    omega
  refine ⟨?_, ?_, ?_⟩
  · intro c
    unfold getOrdersByParty
    rw [hres, hsr2, drop_one_set _ _ _ (by omega)]
    apply filterMap_set_congr _ _ _ _ ([] : Row) hdroplen
    rw [hdropidx]
    exact byPartyRow_congr _ c _ _ hlt.symm (fun j => (hgd j).symm) hp.symm
  · intro p
    unfold getOrdersByProduct
    rw [hres, hsr2, drop_one_set _ _ _ (by omega)]
    apply filterMap_set_congr _ _ _ _ ([] : Row) hdroplen
    rw [hdropidx]
    exact byProductRow_congr _ p _ _ hlt.symm (fun j => (hgd j).symm) hp.symm
  · intro pf cf
    unfold getPivotData
    rw [hres, hsr2, drop_one_set _ _ _ (by omega)]
    apply congrArg pivotAggregate
    apply filterMap_set_congr _ _ _ _ ([] : Row) hdroplen
    rw [hdropidx]
    exact pivotRowContrib_congr _ _ _ _ _ hlt.symm (fun j => (hgd j).symm)

/-- C7 witness: deleting and restoring data row 2 of `gapSheet` leaves the
by-party view unchanged. -/
theorem C7_witness :
    (2 ≤ 2 ∧ 2 ≤ (gapSheet : List Row).length ∧ 6 ≤ (gapSheet.getD (2 - 1) []).length) ∧
      getOrdersByParty
          (restoreOrderSheet 2 (snapOf (gapSheet.getD (2 - 1) [])) (deleteOrderSheet 2 gapSheet))
          [[]] "Acme" =
        getOrdersByParty gapSheet [[]] "Acme" :=
  ⟨by decide,
   (C7_delete_restore_roundtrip gapSheet [[]] 2 (by decide) (by decide) (by decide)).1 "Acme"⟩

theorem mem_dedupAux (seen l : List String) (x : String) :
    x ∈ dedupAux seen l ↔ x ∈ l ∧ x ∉ seen := by
  induction l generalizing seen with
  | nil => simp [dedupAux]
  | cons y ys ih =>
    by_cases hy : y ∈ seen
    · rw [show dedupAux seen (y :: ys) = dedupAux seen ys by simp [dedupAux, hy]]
      rw [ih]
      constructor
      · exact fun h => ⟨List.mem_cons_of_mem y h.1, h.2⟩
      · rintro ⟨hmem, h2⟩
        rcases List.mem_cons.mp hmem with rfl | h1
        · exact absurd hy h2
        · exact ⟨h1, h2⟩
    · rw [show dedupAux seen (y :: ys) = y :: dedupAux (y :: seen) ys by simp [dedupAux, hy]]
      simp only [List.mem_cons, ih, List.mem_cons]
      constructor
      · rintro (rfl | ⟨h1, h2⟩)
        · exact ⟨Or.inl rfl, hy⟩
        · exact ⟨Or.inr h1, fun hx => h2 (Or.inr hx)⟩
      · rintro ⟨rfl | h1, h2⟩
        · exact Or.inl rfl
        · by_cases hxy : x = y
          · exact Or.inl hxy
          · exact Or.inr ⟨h1, fun hx => (hx.elim hxy h2)⟩

theorem dedupAux_nodup (seen l : List String) : (dedupAux seen l).Nodup := by
  induction l generalizing seen with
  | nil => exact List.nodup_nil
  | cons y ys ih =>
    by_cases hy : y ∈ seen
    · rw [show dedupAux seen (y :: ys) = dedupAux seen ys by simp [dedupAux, hy]]
      exact ih seen
    · rw [show dedupAux seen (y :: ys) = y :: dedupAux (y :: seen) ys by simp [dedupAux, hy]]
      refine List.Nodup.cons ?_ (ih (y :: seen))
      intro hmem
      exact ((mem_dedupAux (y :: seen) ys y).mp hmem).2 (List.mem_cons_self y seen)

theorem dedupAux_congr (seen1 seen2 l : List String) (h : ∀ x, x ∈ seen1 ↔ x ∈ seen2) :
    dedupAux seen1 l = dedupAux seen2 l := by
  induction l generalizing seen1 seen2 with
  | nil => rfl
  | cons y ys ih =>
    by_cases hy : y ∈ seen1
    · rw [show dedupAux seen1 (y :: ys) = dedupAux seen1 ys by simp [dedupAux, hy],
        show dedupAux seen2 (y :: ys) = dedupAux seen2 ys by simp [dedupAux, (h y).mp hy]]
      exact ih seen1 seen2 h
    · have hy2 : y ∉ seen2 := fun hx => hy ((h y).mpr hx)
      rw [show dedupAux seen1 (y :: ys) = y :: dedupAux (y :: seen1) ys by simp [dedupAux, hy],
        show dedupAux seen2 (y :: ys) = y :: dedupAux (y :: seen2) ys by simp [dedupAux, hy2]]
      rw [ih (y :: seen1) (y :: seen2) (fun x => by simp [h x])]

/-- Sorting two duplicate-free lists with identical membership gives
identical results. -/
theorem sortStr_eq_of_mem (l1 l2 : List String) (h1 : l1.Nodup) (h2 : l2.Nodup)
    (hm : ∀ x, x ∈ l1 ↔ x ∈ l2) : sortStr l1 = sortStr l2 :=
  sortStr_eq_of_perm l1 l2 ((List.perm_ext_iff_of_nodup h1 h2).mpr hm)

theorem keys_pivotStep (d : List (String × List (String × Int))) (e : String × String × Int) :
    (pivotStep d e).map Prod.fst =
      if e.1 ∈ d.map Prod.fst then d.map Prod.fst else d.map Prod.fst ++ [e.1] := by
  unfold pivotStep
  exact keys_alSet d e.1 _

theorem keys_pivotFold (contribs : List (String × String × Int))
    (d : List (String × List (String × Int))) :
    (contribs.foldl pivotStep d).map Prod.fst =
      d.map Prod.fst ++ dedupAux (d.map Prod.fst) (contribs.map (fun e => e.1)) := by
  induction contribs generalizing d with
  | nil => simp [dedupAux]
  | cons e rest ih =>
    simp only [List.foldl_cons, List.map_cons]
    rw [ih]
    by_cases hm : e.1 ∈ d.map Prod.fst
    · rw [show (pivotStep d e).map Prod.fst = d.map Prod.fst from
        (keys_pivotStep d e).trans (if_pos hm)]
      rw [show dedupAux (d.map Prod.fst) (e.1 :: rest.map (fun e => e.1)) =
        dedupAux (d.map Prod.fst) (rest.map (fun e => e.1)) by simp [dedupAux, hm]]
    · rw [show (pivotStep d e).map Prod.fst = d.map Prod.fst ++ [e.1] from
        (keys_pivotStep d e).trans (if_neg hm)]
      rw [show dedupAux (d.map Prod.fst) (e.1 :: rest.map (fun e => e.1)) =
        e.1 :: dedupAux (e.1 :: d.map Prod.fst) (rest.map (fun e => e.1)) by
          simp [dedupAux, hm]]
      rw [dedupAux_congr ((d.map Prod.fst ++ [e.1])) (e.1 :: d.map Prod.fst) _
        (fun x => by simp [or_comm])]
      simp

/-- Group-sum of pending quantities at one (company, product) pair, as the
claim describes the pivot cells. -/
def sumQ (contribs : List (String × String × Int)) (c p : String) : Int :=
  (contribs.filter (fun e => decide (e.1 = c ∧ e.2.1 = p))).foldr (fun e a => e.2.2 + a) 0

theorem sumQ_cons (e : String × String × Int) (contribs : List (String × String × Int))
    (c p : String) :
    sumQ (e :: contribs) c p =
      (if e.1 = c ∧ e.2.1 = p then e.2.2 else 0) + sumQ contribs c p := by
  unfold sumQ
  by_cases h : e.1 = c ∧ e.2.1 = p
  · rw [if_pos h]
    simp [List.filter_cons, h]
  · rw [if_neg h]
    simp [List.filter_cons, h]

theorem cellGet_pivotStep (d : List (String × List (String × Int)))
    (e : String × String × Int) (c p : String) :
    cellGet (pivotStep d e) c p =
      cellGet d c p + (if e.1 = c ∧ e.2.1 = p then e.2.2 else 0) := by
  unfold pivotStep cellGet
  by_cases hc : c = e.1
  · rw [hc, alGet_alSet_self]
    simp only [Option.getD_some]
    by_cases hp : p = e.2.1
    · rw [hp, alGet_alSet_self]
      simp
    · rw [alGet_alSet_ne _ _ _ _ hp, if_neg (fun h => hp h.2.symm)]
      simp
  · rw [alGet_alSet_ne _ _ _ _ hc, if_neg (fun h => hc h.1.symm)]
    simp

theorem cellGet_pivotFold (contribs : List (String × String × Int))
    (d : List (String × List (String × Int))) (c p : String) :
    cellGet (contribs.foldl pivotStep d) c p = cellGet d c p + sumQ contribs c p := by
  induction contribs generalizing d with
  | nil => simp [sumQ]
  | cons e rest ih =>
    rw [List.foldl_cons, ih, cellGet_pivotStep, sumQ_cons]
    omega

theorem alGet_mem {κ α : Type} [DecidableEq κ] (m : List (κ × α)) (k : κ) (v : α)
    (h : alGet m k = some v) : (k, v) ∈ m := by
  induction m with
  | nil => exact Option.noConfusion h
  | cons e rest ih =>
    by_cases hk : k = e.1
    · rw [show alGet (e :: rest) k = some e.2 by simp [alGet, hk]] at h
      cases h
      rw [hk]
      exact List.mem_cons_self e rest
    · rw [show alGet (e :: rest) k = alGet rest k by simp [alGet, hk]] at h
      exact List.mem_cons_of_mem e (ih h)

theorem mem_alGet {κ α : Type} [DecidableEq κ] (m : List (κ × α)) (k : κ) (v : α)
    (hnd : (m.map Prod.fst).Nodup) (h : (k, v) ∈ m) : alGet m k = some v := by
  induction m with
  | nil => simp at h
  | cons e rest ih =>
    rcases List.mem_cons.mp h with rfl | hmem
    · simp [alGet]
    · have hk : k ≠ e.1 := by
        intro hke
        have : e.1 ∈ rest.map Prod.fst := by
          rw [← hke]
          exact List.mem_map_of_mem Prod.fst hmem
        exact (List.nodup_cons.mp (by simpa using hnd)).1 this
      rw [show alGet (e :: rest) k = alGet rest k by simp [alGet, hk]]
      exact ih (List.nodup_cons.mp (by simpa using hnd)).2 hmem

/-- Membership in an inner product dict of the folded pivot data: a product
appears under a company iff some contribution carries that pair. -/
theorem memInner_pivotFold (contribs : List (String × String × Int))
    (d : List (String × List (String × Int))) (c p : String) :
    (p ∈ ((alGet (contribs.foldl pivotStep d) c).getD []).map Prod.fst) ↔
      (p ∈ ((alGet d c).getD []).map Prod.fst ∨ ∃ q, (c, p, q) ∈ contribs) := by
  induction contribs generalizing d with
  | nil => simp
  | cons e rest ih =>
    rw [List.foldl_cons, ih]
    have hstep : (p ∈ ((alGet (pivotStep d e) c).getD []).map Prod.fst) ↔
        (p ∈ ((alGet d c).getD []).map Prod.fst ∨ (c = e.1 ∧ p = e.2.1)) := by
      unfold pivotStep
      by_cases hc : c = e.1
      · subst hc
        rw [alGet_alSet_self]
        simp only [Option.getD_some, keys_alSet, eq_self_iff_true, true_and]
        by_cases hp : e.2.1 ∈ ((alGet d e.1).getD []).map Prod.fst
        · rw [if_pos hp]
          constructor
          · exact fun h => Or.inl h
          · rintro (h | rfl)
            · exact h
            · exact hp
        · rw [if_neg hp, List.mem_append, List.mem_singleton]
      · rw [alGet_alSet_ne _ _ _ _ hc]
        constructor
        · exact fun h => Or.inl h
        · rintro (h | ⟨hce, -⟩)
          · exact h
          · exact absurd hce hc
    rw [hstep]
    constructor
    · rintro ((h | h) | ⟨hq, hmem⟩)
      · exact Or.inl h
      · exact Or.inr ⟨e.2.2, by
          rcases h with ⟨rfl, rfl⟩
          exact List.mem_cons_self e rest⟩
      · exact Or.inr ⟨hq, List.mem_cons_of_mem e hmem⟩
    · rintro (h | ⟨q, hmem⟩)
      · exact Or.inl (Or.inl h)
      · rcases List.mem_cons.mp hmem with heq | hmem'
        · refine Or.inl (Or.inr ?_)
          rw [← heq]
          exact ⟨rfl, rfl⟩
        · exact Or.inr ⟨q, hmem'⟩

theorem mem_allInner (data : List (String × List (String × Int)))
    (hnd : (data.map Prod.fst).Nodup) (p : String) :
    (p ∈ ((data.map (fun e => e.2.map Prod.fst)).flatten)) ↔
      ∃ c, p ∈ ((alGet data c).getD []).map Prod.fst := by
  rw [List.mem_flatten]
  constructor
  · rintro ⟨s, hs, hp⟩
    rw [List.mem_map] at hs
    obtain ⟨entry, hentry, rfl⟩ := hs
    refine ⟨entry.1, ?_⟩
    rw [mem_alGet data entry.1 entry.2 hnd hentry]
    simpa using hp
  · rintro ⟨c, hp⟩
    cases hga : alGet data c with
    | none =>
      rw [hga] at hp
      simp at hp
    | some inner =>
      rw [hga] at hp
      simp only [Option.getD_some] at hp
      exact ⟨inner.map Prod.fst,
        List.mem_map_of_mem (fun e => e.2.map Prod.fst) (alGet_mem data c inner hga), hp⟩

/-- The declarative pivot described by claim C5, over the same per-row
contributions: the distinct company and product texts sorted, and a
row-major matrix of group sums with zero for absent pairs. -/
def pivotDeclarative (contribs : List (String × String × Int)) : PivotOut :=
  { products := sortStr (dedupAux [] (contribs.map (fun e => e.2.1))),
    parties := sortStr (dedupAux [] (contribs.map (fun e => e.1))),
    pivot := (sortStr (dedupAux [] (contribs.map (fun e => e.1)))).map
      (fun c => (sortStr (dedupAux [] (contribs.map (fun e => e.2.1)))).map
        (fun p => sumQ contribs c p)) }

/-- The pivot as claim C5 words it, with the company grouping text given by
`key` (`id` for the claim's "exact (unnormalized) company text", `pyStrip`
for the amended claim). -/
def pivotSpecKeyed (key : String → String) (orders ds : List Row) (pf cf : String) : PivotOut :=
  pivotDeclarative
    ((orders.drop 1).filterMap (pivotRowContribK key (dispatchMap ds) (pyLower pf) (pyLower cf)))

/-- The incremental dict aggregation of `get_pivot_data` computes exactly
the declarative group-by: same sorted dimension lists, same matrix. -/
theorem pivotAgg_eq (contribs : List (String × String × Int)) :
    pivotAggregate contribs = pivotDeclarative contribs := by
  have hkeys : (contribs.foldl pivotStep []).map Prod.fst =
      dedupAux [] (contribs.map (fun e => e.1)) := by
    simpa using keys_pivotFold contribs []
  have hnd : ((contribs.foldl pivotStep []).map Prod.fst).Nodup := by
    rw [hkeys]
    exact dedupAux_nodup [] _
  have hprodeq : sortStr (dedupAux []
      (((contribs.foldl pivotStep []).map (fun e => e.2.map Prod.fst)).flatten)) =
      sortStr (dedupAux [] (contribs.map (fun e => e.2.1))) := by
    apply sortStr_eq_of_mem _ _ (dedupAux_nodup [] _) (dedupAux_nodup [] _)
    intro x
    rw [mem_dedupAux, mem_dedupAux]
    simp only [List.not_mem_nil, not_false_iff, and_true]
    rw [mem_allInner _ hnd]
    constructor
    · rintro ⟨c, hx⟩
      have hm := (memInner_pivotFold contribs [] c x).mp hx
      simp only [alGet, Option.getD_none, List.map_nil, List.not_mem_nil, false_or] at hm
      obtain ⟨q, hq⟩ := hm
      exact List.mem_map.mpr ⟨(c, x, q), hq, rfl⟩
    · intro hx
      obtain ⟨e, he, rfl⟩ := List.mem_map.mp hx
      exact ⟨e.1, (memInner_pivotFold contribs [] e.1 e.2.1).mpr (Or.inr ⟨e.2.2, he⟩)⟩
  have hcell : ∀ c p, cellGet (contribs.foldl pivotStep []) c p = sumQ contribs c p := by
    intro c p
    have h := cellGet_pivotFold contribs [] c p
    simpa [cellGet, alGet] using h
  simp only [pivotAggregate, pivotDeclarative]
  rw [hkeys, hprodeq]
  simp only [hcell]

/-- C5 (amended): `get_pivot_data` equals the declarative pivot that groups
remaining quantities by the whitespace-stripped company text and the exact
product text, with the claim's comma-separated case-insensitive substring
filters, lexicographically sorted distinct dimension lists, and a row-major
company × product matrix of summed pending quantities with zero fill. -/
theorem C5_pivot_refines_spec (orders ds : List Row) (pf cf : String) :
    getPivotData orders ds pf cf = pivotSpecKeyed pyStrip orders ds pf cf := by
  unfold getPivotData pivotSpecKeyed pivotRowContrib
  exact pivotAgg_eq _

/-- C5, counterexample to the claim as stated: the source strips the company
text (`r[2].strip()`) before grouping, so for a company cell `" Acme "` the
code's parties list is `["Acme"]` while grouping by the exact text would
produce `[" Acme "]`. -/
theorem C5_counterexample :
    (getPivotData [[], ["1", "2024-01-01", " Acme ", "W", "", "5", "2"]] [[]] "" "").parties =
        ["Acme"] ∧
      (pivotSpecKeyed id [[], ["1", "2024-01-01", " Acme ", "W", "", "5", "2"]] [[]] ""
          "").parties = [" Acme "] ∧
      getPivotData [[], ["1", "2024-01-01", " Acme ", "W", "", "5", "2"]] [[]] "" "" ≠
        pivotSpecKeyed id [[], ["1", "2024-01-01", " Acme ", "W", "", "5", "2"]] [[]] "" "" := by
  decide

/-- C5 witness: a concrete pivot with one order row and a dispatch of 2
against it evaluates identically on both sides, with cell 5 − 2 = 3. -/
theorem C5_witness :
    (getPivotData [[], ["1", "2024-01-01", " Acme ", "W", "", "5", "2"]]
        [[], ["d", "x", "w", "2", "1"]] "" "").pivot = [[3]] ∧
      getPivotData [[], ["1", "2024-01-01", " Acme ", "W", "", "5", "2"]]
          [[], ["d", "x", "w", "2", "1"]] "" "" =
        pivotSpecKeyed pyStrip [[], ["1", "2024-01-01", " Acme ", "W", "", "5", "2"]]
          [[], ["d", "x", "w", "2", "1"]] "" "" :=
  ⟨by decide,
   C5_pivot_refines_spec [[], ["1", "2024-01-01", " Acme ", "W", "", "5", "2"]]
     [[], ["d", "x", "w", "2", "1"]] "" ""⟩
